import Mathlib

/-
Verification development for the microservice-refactor-agent repository.

The Lean definitions below are a shallow embedding of the Python code in
`refactor_agent/` (analyzer.py, planner.py, regression.py, models.py):
pure Python functions become Lean functions, Python lists become `List`,
Python dicts of known shape become structures or association lists traversed
in insertion order, Python float literals are modelled as exact rationals,
and code that can raise an exception returns `Except String`.
File-system access (reading source files during `_analyze_service`) is
outside the embedding: the architecture analyzer is modelled as operating on
the per-service analysis records that the file walk would have produced.
-/

set_option linter.unusedVariables false

namespace RefactorAgent

/-! ## Generic helpers -/

/-- Python substring containment test, `needle in hay` for strings. -/
def strContains (hay needle : String) : Bool :=
  hay.toList.tails.any (fun t => needle.toList.isPrefixOf t)

/-- Python `s.endswith(t)`, computed over the character list. -/
def strEndsWith (s t : String) : Bool :=
  t.toList.reverse.isPrefixOf s.toList.reverse

/-- Python slicing `s[:-n]`: the string without its last `n` characters. -/
def strDropRight (s : String) (n : Nat) : String :=
  String.mk (s.toList.take (s.toList.length - n))

/-- Python `s.startswith(t)`, computed over the character list. -/
def strStartsWith (s t : String) : Bool :=
  t.toList.isPrefixOf s.toList

/-- Worker for `dedupFirst`, carrying the elements already emitted. -/
def dedupFirstAux [DecidableEq α] (seen : List α) : List α → List α
  | [] => []
  | x :: xs =>
      if seen.contains x then dedupFirstAux seen xs
      else x :: dedupFirstAux (seen ++ [x]) xs

/-- Insertion-ordered duplicate removal keeping the first occurrence of every
element; models the key order of a Python dict or the member order of a set
populated by successive insertions. -/
def dedupFirst [DecidableEq α] (l : List α) : List α :=
  dedupFirstAux [] l

/-! ## analyzer.py: data model

Mirrors `refactor_agent/models.py` and the dict produced by
`ArchitectureAnalyzer._analyze_service`.  `strength` is carried as a rational
number standing for the float literal the code stores. -/

structure Endpoint where
  path : String
  method : String
  framework : String
deriving DecidableEq, Repr

structure CodeSmell where
  type : String
  severity : String
  location : String
  description : String
  suggested_fix : Option String := none
deriving DecidableEq, Repr

structure ServiceDependency where
  source : String
  target : String
  dependency_type : String
  strength : Rat
  calls : List String
deriving DecidableEq, Repr

/-- The dict built by `ArchitectureAnalyzer._analyze_service` (analyzer.py,
lines 237-275), after `database_tables` and `external_dependencies` have been
converted back to lists. -/
structure ServiceAnalysis where
  name : String
  path : String
  files : List String
  total_lines : Nat
  complexity : Nat
  api_endpoints : List Endpoint
  database_tables : List String
  external_dependencies : List String
  internal_calls : List String
deriving DecidableEq, Repr

/-- Runtime value stored in a Python dict slot.  Only the shapes that actually
occur in a service-analysis dict are represented, plus `vDict` so that the
semantics of an attribute lookup such as `.get` can distinguish dict values
from non-dict values. -/
inductive PyVal where
  | vStr : String → PyVal
  | vNat : Nat → PyVal
  | vStrList : List String → PyVal
  | vEndpoints : List Endpoint → PyVal
  | vDict : List (String × PyVal) → PyVal

/-- `service_analysis.items()`: the key/value pairs of the dict built by
`_analyze_service`, in Python dict insertion order. -/
def ServiceAnalysis.items (a : ServiceAnalysis) : List (String × PyVal) :=
  [("name", .vStr a.name),
   ("path", .vStr a.path),
   ("files", .vStrList a.files),
   ("total_lines", .vNat a.total_lines),
   ("complexity", .vNat a.complexity),
   ("api_endpoints", .vEndpoints a.api_endpoints),
   ("database_tables", .vStrList a.database_tables),
   ("external_dependencies", .vStrList a.external_dependencies),
   ("internal_calls", .vStrList a.internal_calls)]

/-- Semantics of the Python expression `v.get(key, [])` for a value `v` taken
out of a dict: only dict values have a `.get` attribute, every other runtime
type raises `AttributeError`. -/
def PyVal.getStrList (v : PyVal) (key : String) (default : List String) :
    Except String (List String) :=
  match v with
  | .vDict kvs =>
      .ok (match kvs.lookup key with
           | some (.vStrList l) => l
           | _ => default)
  | _ => .error "AttributeError"

/-! ## analyzer.py: `_detect_code_smells` (lines 277-316) -/

/-- Inner loop of the shared-database rule: Python iterates over
`service_analysis.items()` — the current service's own analysis dict — and
calls `.get("database_tables", [])` on each value.  An exception aborts the
whole call. -/
def sharedDbLoop (service_name : String) (a : ServiceAnalysis) :
    List (String × PyVal) → Except String (List CodeSmell)
  | [] => .ok []
  | (other_service, other_analysis) :: rest =>
      if other_service = service_name then
        sharedDbLoop service_name a rest
      else do
        let otherTables ← other_analysis.getStrList "database_tables" []
        -- `set(...) & set(...)` followed by a truthiness test: the
        -- intersection is non-empty.
        let shared_tables := a.database_tables.filter (fun t => otherTables.contains t)
        let restSmells ← sharedDbLoop service_name a rest
        if shared_tables ≠ [] then
          .ok ({ type := "shared_database"
                 severity := "high"
                 location := service_name ++ " and " ++ other_service
                 description := "Services share database tables: " ++ toString shared_tables
                 suggested_fix :=
                   some "Consider database-per-service pattern or API-based data access" }
               :: restSmells)
        else
          .ok restSmells

/-- `ArchitectureAnalyzer._detect_code_smells`.  The god-service and
high-complexity rules are pure; the shared-database rule runs `sharedDbLoop`
whenever the service references at least one table.  The float division in the
average-complexity test is modelled with exact rationals (the `:.1f`
formatting of the description is elided as `toString`). -/
def detect_code_smells (service_name : String) (a : ServiceAnalysis) :
    Except String (List CodeSmell) := do
  let godSmells : List CodeSmell :=
    if a.api_endpoints.length > 20 then
      [{ type := "god_service"
         severity := "high"
         location := service_name
         description := "Service has " ++ toString a.api_endpoints.length
                        ++ " endpoints, consider splitting"
         suggested_fix :=
           some "Split into smaller, focused services based on domain boundaries" }]
    else []
  let avg_complexity : Rat := (a.complexity : Rat) / (max a.files.length 1 : Nat)
  let complexitySmells : List CodeSmell :=
    if avg_complexity > 10 then
      [{ type := "high_complexity"
         severity := "medium"
         location := service_name
         description := "Average file complexity is " ++ toString avg_complexity
         suggested_fix := some "Refactor complex functions and classes" }]
    else []
  let sharedSmells ←
    if a.database_tables.length > 0 then
      sharedDbLoop service_name a a.items
    else
      pure []
  .ok (godSmells ++ complexitySmells ++ sharedSmells)

/-! ## analyzer.py: dependency graph (lines 318-351) -/

/-- `ArchitectureAnalyzer._check_api_dependency` (lines 343-351): the source
computes an escaped pattern, loops over the service's files with a `pass`
body, and returns `False` unconditionally (the body is marked as a
placeholder in the source). -/
def check_api_dependency (endpoint_path : String) (service_data : ServiceAnalysis) : Bool :=
  let _endpoint_pattern := endpoint_path.replace "/" "\\/"
  let _files := service_data.files
  false

/-- `ArchitectureAnalyzer._build_dependency_graph` (lines 318-341): for every
service, every declared endpoint, and every other service, append an `api`
dependency of strength 0.7 when `check_api_dependency` reports a call. -/
def build_dependency_graph (services : List (String × ServiceAnalysis)) :
    List ServiceDependency :=
  services.foldl
    (fun deps sp =>
      sp.2.api_endpoints.foldl
        (fun deps endpoint =>
          deps ++ services.filterMap
            (fun op =>
              if op.1 ≠ sp.1 ∧ check_api_dependency endpoint.path op.2 then
                some ({ source := op.1
                        target := sp.1
                        dependency_type := "api"
                        strength := (7 : Rat) / 10
                        calls := [endpoint.path] } : ServiceDependency)
              else none))
        deps)
    []

/-- Edges inserted into `self.dependency_graph`: one `(other, service)` edge
per appended dependency (analyzer.py line 339). -/
def dependency_graph_edges (services : List (String × ServiceAnalysis)) :
    List (String × String) :=
  (build_dependency_graph services).map (fun d => (d.source, d.target))

/-! ## analyzer.py: metrics and risk areas (lines 353-434) -/

/-- Nodes of a `networkx.DiGraph` populated exclusively through `add_edge`,
in insertion order. -/
def graphNodes (edges : List (String × String)) : List String :=
  edges.foldl
    (fun ns e =>
      let ns := if ns.contains e.1 then ns else ns ++ [e.1]
      if ns.contains e.2 then ns else ns ++ [e.2])
    []

/-- Degree (in plus out) of a node in an edge list. -/
def nodeDegree (edges : List (String × String)) (v : String) : Nat :=
  (edges.filter (fun e => e.1 = v)).length + (edges.filter (fun e => e.2 = v)).length

/-- Documented behaviour of `networkx.degree_centrality`: degree normalised by
`n - 1`, with every centrality equal to 1 when the graph has at most one
node. -/
def degree_centrality (edges : List (String × String)) : List (String × Rat) :=
  let ns := graphNodes edges
  if ns.length ≤ 1 then
    ns.map (fun v => (v, 1))
  else
    ns.map (fun v => (v, (nodeDegree edges v : Rat) / ((ns.length : Rat) - 1)))

/-- The metrics dict of `ArchitectureAnalyzer._calculate_metrics`; the two
centrality entries are only present when the dependency graph has nodes,
modelled with `Option`. -/
structure Metrics where
  total_services : Nat
  total_dependencies : Nat
  avg_service_complexity : Rat
  coupling_score : Rat
  avg_endpoints_per_service : Rat
  max_centrality : Option Rat := none
  avg_centrality : Option Rat := none
deriving DecidableEq, Repr

/-- Maximum of a list of rationals, 0 for the empty list (`max(...)` in the
source is only evaluated on non-empty centrality dicts). -/
def ratMax : List Rat → Rat
  | [] => 0
  | x :: xs => xs.foldl max x

/-- `ArchitectureAnalyzer._calculate_metrics` (lines 353-370). -/
def calculate_metrics (services : List (String × ServiceAnalysis))
    (dependencies : List ServiceDependency)
    (graphEdges : List (String × String)) : Metrics :=
  let n := services.length
  let centrality := degree_centrality graphEdges
  let base : Metrics :=
    { total_services := n
      total_dependencies := dependencies.length
      avg_service_complexity :=
        ((services.map (fun s => (s.2.complexity : Rat))).sum) / (max n 1 : Nat)
      coupling_score := (dependencies.length : Rat) / (max (n * (n - 1)) 1 : Nat)
      avg_endpoints_per_service :=
        ((services.map (fun s => (s.2.api_endpoints.length : Rat))).sum) / (max n 1 : Nat) }
  if (graphNodes graphEdges).length > 0 then
    { base with
      max_centrality := some (ratMax (centrality.map (·.2)))
      avg_centrality :=
        some ((centrality.map (·.2)).sum / (centrality.length : Rat)) }
  else
    base

/-- Entries of the `risk_areas` list built by
`ArchitectureAnalyzer._identify_risk_areas`. -/
structure RiskArea where
  type : String
  service : String
  risk_score : Rat
  description : String
deriving DecidableEq, Repr

/-- `ArchitectureAnalyzer._identify_risk_areas` (lines 406-434): a
high-coupling entry per node of the dependency graph whose degree centrality
exceeds 0.5, then a single-point-of-failure entry per service whose
dependents outnumber half the services. -/
def identify_risk_areas (services : List (String × ServiceAnalysis))
    (dependencies : List ServiceDependency)
    (graphEdges : List (String × String)) : List RiskArea :=
  let highCoupling : List RiskArea :=
    if (graphNodes graphEdges).length > 0 then
      (degree_centrality graphEdges).filterMap
        (fun vs =>
          if vs.2 > (1 : Rat) / 2 then
            some { type := "high_coupling"
                   service := vs.1
                   risk_score := vs.2
                   description := vs.1 ++ " is highly coupled with "
                     ++ toString (vs.2 * (services.length : Rat)).floor
                     ++ " other services" }
          else none)
    else []
  let spof : List RiskArea :=
    services.filterMap
      (fun sp =>
        let dependents := (dependencies.filter (fun d => d.target = sp.1)).map (·.source)
        if (dependents.length : Rat) > (services.length : Rat) * (1 / 2 : Rat) then
          some { type := "single_point_of_failure"
                 service := sp.1
                 risk_score := (dependents.length : Rat) / (services.length : Rat)
                 description := sp.1 ++ " is a dependency for "
                   ++ toString dependents.length ++ " services" }
        else none)
  highCoupling ++ spof

/-- `ArchitectureAnalysis` output record (models.py lines 49-56).  The
`recommendations` list — free-text report strings — is elided from the
embedding. -/
structure ArchitectureAnalysis where
  services : List (String × ServiceAnalysis)
  dependencies : List ServiceDependency
  code_smells : List CodeSmell
  metrics : Metrics
  risk_areas : List RiskArea
deriving DecidableEq, Repr

/-- Per-service smell-detection loop of `analyze_architecture` (lines
208-214): accumulate the smells of every service, propagating any
exception. -/
def collect_smells (services : List (String × ServiceAnalysis)) :
    Except String (List CodeSmell) :=
  services.foldlM
    (fun acc sp => do
      let smells ← detect_code_smells sp.1 sp.2
      pure (acc ++ smells))
    ([] : List CodeSmell)

/-- `ArchitectureAnalyzer.analyze_architecture` (lines 201-235), taking the
per-service analysis records the file walk would produce.  An exception in
smell detection aborts the whole analysis. -/
def analyze_architecture (services : List (String × ServiceAnalysis)) :
    Except String ArchitectureAnalysis := do
  let code_smells ← collect_smells services
  let dependencies := build_dependency_graph services
  let graphEdges := dependency_graph_edges services
  let metrics := calculate_metrics services dependencies graphEdges
  let risk_areas := identify_risk_areas services dependencies graphEdges
  .ok { services := services
        dependencies := dependencies
        code_smells := code_smells
        metrics := metrics
        risk_areas := risk_areas }

/-! ## planner.py: data model and dependency ordering -/

/-- `RefactorStep` (models.py lines 59-70); the `type` field carries the
string value of the `RefactorType` enum. -/
structure RefactorStep where
  id : String
  type : String
  description : String
  target_files : List String := []
  dependencies : List String := []
  estimated_effort : Nat
  risk_level : String
  validation_steps : List String := []
  commit_message : Option String := none
deriving DecidableEq, Repr

/-- Keys of `step_map = {step.id: step for step in steps}`, in dict insertion
order (first occurrence of each id). -/
def stepIds (steps : List RefactorStep) : List String :=
  dedupFirst (steps.map (·.id))

/-- Value lookup in `step_map`: a repeated id keeps the value of the last
assignment. -/
def stepMapLookup (steps : List RefactorStep) (id : String) : Option RefactorStep :=
  steps.reverse.find? (fun s => s.id = id)

/-- Directed graph as built through `networkx.DiGraph.add_node` and
`add_edge`: node list in insertion order, edge list in insertion order with
parallel edges collapsed. -/
structure Digraph where
  nodes : List String
  edges : List (String × String)
deriving DecidableEq, Repr

def Digraph.addNode (g : Digraph) (v : String) : Digraph :=
  if g.nodes.contains v then g else { g with nodes := g.nodes ++ [v] }

def Digraph.addEdge (g : Digraph) (u v : String) : Digraph :=
  let g := (g.addNode u).addNode v
  if g.edges.contains (u, v) then g else { g with edges := g.edges ++ [(u, v)] }

/-- Inner loop of a wildcard dependency (planner.py lines 386-390): one edge
`other_id -> sid` per known step id matching the wildcard's prefix. -/
def wildcardFold (ids : List String) (pfx sid : String) (g : Digraph) : Digraph :=
  ids.foldl
    (fun g other_id => if strStartsWith other_id pfx then g.addEdge other_id sid else g)
    g

/-- Processing of one dependency entry of a step with id `sid` (planner.py
lines 384-392): wildcard entries fan out over the known ids, literal entries
that name a known step id add a single edge, anything else is ignored. -/
def depStep (ids : List String) (sid : String) (g : Digraph) (dep : String) : Digraph :=
  if strEndsWith dep "*" then
    wildcardFold ids (strDropRight dep 1) sid g
  else if ids.contains dep then g.addEdge dep sid
  else g

/-- Processing of one step (planner.py lines 382-392): add its node, then
each of its dependency entries. -/
def stepProcess (ids : List String) (g : Digraph) (step : RefactorStep) : Digraph :=
  step.dependencies.foldl (depStep ids step.id) (g.addNode step.id)

/-- Graph construction of `RefactorPlanner._order_by_dependencies` (planner.py
lines 378-392): one node per step, an edge `dep -> step.id` for every literal
dependency that is a known step id, and an edge `other_id -> step.id` for
every step id matching a wildcard dependency's prefix. -/
def buildStepGraph (steps : List RefactorStep) : Digraph :=
  steps.foldl (stepProcess (stepIds steps)) { nodes := [], edges := [] }

/-- Does node `v` lack incoming edges from the `remaining` node set?  This is
the selection criterion of Kahn's algorithm. -/
def noIncoming (edges : List (String × String)) (remaining : List String)
    (v : String) : Bool :=
  edges.all (fun e => !(e.2 == v && remaining.contains e.1))

/-- Kahn's algorithm with explicit fuel: repeatedly emit the first remaining
node with no incoming edge from the remaining set.  Returns `none` when stuck
(every remaining node has an incoming edge — a cycle) or out of fuel. -/
def kahnAux (edges : List (String × String)) : Nat → List String → Option (List String)
  | 0, remaining => if remaining.isEmpty then some [] else none
  | fuel + 1, remaining =>
      if remaining.isEmpty then some []
      else
        match remaining.find? (noIncoming edges remaining) with
        | some v => (kahnAux edges fuel (remaining.erase v)).map (v :: ·)
        | none => none

/-- Model of `networkx.topological_sort` over the embedded digraph: a
topological order of all nodes when the graph is acyclic, `none`
(`NetworkXUnfeasible`) otherwise. -/
def topoSort (g : Digraph) : Option (List String) :=
  kahnAux g.edges g.nodes.length g.nodes

/-- `RefactorPlanner._order_by_dependencies` (planner.py lines 376-400): sort
topologically and map ids back through `step_map`; on `NetworkXUnfeasible`
(cycle) return the input order unchanged. -/
def order_by_dependencies (steps : List RefactorStep) : List RefactorStep :=
  let g := buildStepGraph steps
  match topoSort g with
  | some ordered_ids => ordered_ids.filterMap (fun id => stepMapLookup steps id)
  | none => steps

/-- Stable ascending insertion by key: the new element goes after every
element whose key is less than or equal to its own.  `pyFoldSortAsc` below is
then exactly Python's stable `sorted(l, key=f)`. -/
def stableInsertAsc (f : α → Nat) (x : α) : List α → List α
  | [] => [x]
  | y :: ys => if f x < f y then x :: y :: ys else y :: stableInsertAsc f x ys

/-- Python's `sorted(l, key=f)`: stable, ascending. -/
def pySortedAsc (f : α → Nat) (l : List α) : List α :=
  l.foldl (fun acc x => stableInsertAsc f x acc) []

/-- Stable descending insertion by key: the new element goes after every
element whose key is greater than or equal to its own. -/
def stableInsertDesc (f : α → Nat) (x : α) : List α → List α
  | [] => [x]
  | y :: ys => if f y < f x then x :: y :: ys else y :: stableInsertDesc f x ys

/-- Python's `sorted(l, key=f, reverse=True)`: stable, descending. -/
def pySortedDesc (f : α → Nat) (l : List α) : List α :=
  l.foldl (fun acc x => stableInsertDesc f x acc) []

/-- Last index at which `p` occurs in `l` (0 when absent): the value stored in
`priority_map` for a possibly repeated priority keyword. -/
def lastIdxOf (l : List String) (p : String) : Nat :=
  (((l.enum).filter (fun ia => ia.2 = p)).map (·.1)).getLastD 0

/-- The pairs of `priority_map = {p: i for i, p in enumerate(priorities)}` in
dict iteration order: first-occurrence key order, last-assignment values. -/
def priorityPairs (priorities : List String) : List (String × Nat) :=
  (dedupFirst priorities).map (fun p => (p, lastIdxOf priorities p))

/-- `get_priority` inside `RefactorPlanner._prioritize_steps` (planner.py
lines 367-372): index of the first priority keyword occurring as a substring
of the step type or lower-cased description, else `len(priorities)`. -/
def get_priority (priorities : List String) (step : RefactorStep) : Nat :=
  match (priorityPairs priorities).find?
      (fun pi => strContains step.type pi.1 || strContains step.description.toLower pi.1) with
  | some pi => pi.2
  | none => priorities.length

/-- `RefactorPlanner._prioritize_steps` (planner.py lines 363-374). -/
def prioritize_steps (steps : List RefactorStep) (priorities : List String) :
    List RefactorStep :=
  pySortedAsc (get_priority priorities) steps

/-- The step list of `create_refactoring_plan` just before dependency
ordering (planner.py lines 49-50): prioritised only when a non-empty priority
list was supplied (Python truthiness of the optional argument). -/
def presort_steps (steps : List RefactorStep) (priorities : Option (List String)) :
    List RefactorStep :=
  match priorities with
  | some ps => if ps = [] then steps else prioritize_steps steps ps
  | none => steps

/-- Step pipeline of `RefactorPlanner.create_refactoring_plan` (planner.py
lines 26-74) restricted to the `steps` field of the returned plan: the
strategy-generated steps are taken as input (strategy selection and the plan
envelope — uuid, timestamps, effort sum — are orthogonal to ordering). -/
def create_plan_steps (steps : List RefactorStep) (priorities : Option (List String)) :
    List RefactorStep :=
  order_by_dependencies (presort_steps steps priorities)

/-- One-or-more-step reachability along the edge list: the paths whose
existence a topological order must respect and whose closure detects cycles. -/
inductive Reach (edges : List (String × String)) : String → String → Prop
  | single {a b : String} : (a, b) ∈ edges → Reach edges a b
  | tail {a b c : String} : (a, b) ∈ edges → Reach edges b c → Reach edges a c

/-- A directed cycle: some node reaches itself in at least one step. -/
def HasCycle (edges : List (String × String)) : Prop :=
  ∃ v, Reach edges v v

/-! ## analyzer.py: cyclomatic complexity (lines 101-117)

`_calculate_complexity` inspects only each node's constructor (`ast.If`,
`ast.While`, `ast.For`, `ast.ExceptHandler`, `ast.BoolOp`) and, for a boolean
operation, the arity of its `values` list.  A Python AST is therefore embedded
as a rose tree carrying a node kind; for a `boolOpK` node the children are its
`values` (the operator object contributes to no count and is elided).
`ast.walk` visits every node exactly once, so the breadth-first order of the
original is modelled by a depth-first enumeration without changing any count. -/

inductive NodeKind where
  | ifK | whileK | forK | exceptHandlerK | tryK | boolOpK | functionDefK | moduleK | otherK
deriving DecidableEq, Repr

inductive PyAst where
  | node : NodeKind → List PyAst → PyAst

/-- Kinds counted as branching constructs by both complexity functions:
`isinstance(node, (ast.If, ast.While, ast.For, ast.ExceptHandler))`. -/
def isBranchKind : NodeKind → Bool
  | .ifK | .whileK | .forK | .exceptHandlerK => true
  | _ => false

mutual

/-- All nodes of the tree, the root first (`ast.walk` enumeration). -/
def walk : PyAst → List PyAst
  | .node k cs => .node k cs :: walkL cs

/-- All nodes of a forest. -/
def walkL : List PyAst → List PyAst
  | [] => []
  | c :: cs => walk c ++ walkL cs

end

/-- `CodeAnalyzer._calculate_complexity` (analyzer.py lines 101-109):
`complexity = 1`, plus 1 per branching node, plus `len(values) - 1` per
boolean operation. -/
def calculate_complexity (tree : PyAst) : Nat :=
  (walk tree).foldl
    (fun complexity n =>
      match n with
      | .node k cs =>
          if isBranchKind k then complexity + 1
          else if k = .boolOpK then complexity + (cs.length - 1)
          else complexity)
    1

/-- `CodeAnalyzer._calculate_function_complexity` (analyzer.py lines
111-117): `complexity = 1` plus 1 per branching node — no boolean-operation
term. -/
def calculate_function_complexity (func : PyAst) : Nat :=
  (walk func).foldl
    (fun complexity n =>
      match n with
      | .node k _ => if isBranchKind k then complexity + 1 else complexity)
    1

mutual

/-- Structural count of branching nodes — specification-side counterpart of
the `ast.walk` traversal. -/
def branchCount : PyAst → Nat
  | .node k cs => (if isBranchKind k then 1 else 0) + branchCountL cs

def branchCountL : List PyAst → Nat
  | [] => 0
  | c :: cs => branchCount c + branchCountL cs

end

mutual

/-- Structural sum of boolean-operator fan-in minus one — the
boolean-operator term of the claimed cyclomatic-complexity formula. -/
def boolOpSum : PyAst → Nat
  | .node k cs => (if k = .boolOpK then cs.length - 1 else 0) + boolOpSumL cs

def boolOpSumL : List PyAst → Nat
  | [] => 0
  | c :: cs => boolOpSum c + boolOpSumL cs

end

/-! ## regression.py: data model -/

/-- `RegressionRisk` (models.py lines 86-93). -/
structure RegressionRisk where
  type : String
  severity : String
  description : String
  affected_components : List String
  mitigation : Option String := none
  test_suggestions : List String := []
deriving DecidableEq, Repr

/-- `CodeChange` (models.py lines 96-102). -/
structure CodeChange where
  file_path : String
  change_type : String
  diff : String
  line_changes : List (String × Nat) := []
  semantic_changes : List String := []
deriving DecidableEq, Repr

/-- State of a `RegressionDetector` instance as fixed by its constructor.
The compiled regular expressions are external `re` library objects; they are
embedded as their match behaviour: a Boolean `search` per named pattern of
`_compile_api_patterns`, a group-extracting match for the function-definition
pattern of `_detect_parameter_changes`, and Boolean searches for the literal
SQL-injection and hardcoded-secret pattern lists of
`_check_security_impacts`.  (`self.behavior_patterns` is compiled by the
constructor but never read, and is elided.) -/
structure RegressionDetector where
  api_patterns : List (String × (String → Bool))
  func_def_match : String → Option (String × String)
  sql_patterns : List (String → Bool)
  secret_patterns : List (String → Bool)

/-! ## regression.py: rule families -/

/-- `RegressionDetector._check_api_changes` (lines 71-130), endpoint part:
per pattern family, a critical risk when removed lines match and no added
line does, a high risk when both sides match. -/
def check_api_endpoint_risks (d : RegressionDetector) (removed added : List String)
    (file_path : String) : List RegressionRisk :=
  d.api_patterns.foldl
    (fun risks np =>
      let removed_matches := (removed.filter (fun l => np.2 l)).map (·.trim)
      if removed_matches ≠ [] then
        let added_matches := added.filter (fun l => np.2 l)
        if added_matches = [] then
          risks ++ [{ type := "api_change"
                      severity := "critical"
                      description := "API endpoint removed: " ++ removed_matches.headD ""
                      affected_components := [file_path]
                      mitigation := some "Add deprecation notice and migration path"
                      test_suggestions :=
                        ["Test all client applications",
                         "Verify API backward compatibility",
                         "Check API documentation updates"] }]
        else
          risks ++ [{ type := "api_change"
                      severity := "high"
                      description := "API endpoint modified in " ++ file_path
                      affected_components := [file_path]
                      mitigation := some "Ensure backward compatibility or version the API"
                      test_suggestions :=
                        ["Test with existing API clients",
                         "Verify request/response format compatibility",
                         "Update API tests"] }]
      else risks)
    []

/-- A `{"function", "removed", "added"}` entry of
`_detect_parameter_changes`. -/
structure ParamChange where
  function : String
  removed : List String
  added : List String
deriving DecidableEq, Repr

/-- Assignment `m[k] = v` on an insertion-ordered dict. -/
def dictInsert (m : List (String × β)) (k : String) (v : β) : List (String × β) :=
  if m.any (·.1 = k) then m.map (fun kv => if kv.1 = k then (k, v) else kv)
  else m ++ [(k, v)]

/-- Parameter-list post-processing: split on commas, strip, drop empties. -/
def splitParams (s : String) : List String :=
  ((s.splitOn ",").map (·.trim)).filter (fun p => p ≠ "")

/-- The `removed_funcs` / `added_funcs` dicts of
`_detect_parameter_changes`: one entry per function name found, last match
winning. -/
def collectFuncs (matchFn : String → Option (String × String)) (lines : List String) :
    List (String × List String) :=
  lines.foldl
    (fun m line =>
      match matchFn line with
      | some np => dictInsert m np.1 (splitParams np.2)
      | none => m)
    []

/-- Python `list(set(a) - set(b))`: the members of `a` absent from `b`,
deduplicated (the regression rules only test this list for emptiness). -/
def listSetDiff (a b : List String) : List String :=
  dedupFirst (a.filter (fun x => !b.contains x))

/-- `RegressionDetector._detect_parameter_changes` (lines 322-354).  The
iteration over the key-set intersection is modelled in `removed_funcs`
insertion order (Python set iteration order is fixed within a process). -/
def detect_parameter_changes (d : RegressionDetector) (removed added : List String) :
    List ParamChange :=
  let removed_funcs := collectFuncs d.func_def_match removed
  let added_funcs := collectFuncs d.func_def_match added
  (removed_funcs.filter (fun kv => added_funcs.any (·.1 = kv.1))).filterMap
    (fun kv =>
      let rp := kv.2
      let ap := (added_funcs.lookup kv.1).getD []
      if rp ≠ ap then
        some { function := kv.1, removed := listSetDiff rp ap, added := listSetDiff ap rp }
      else none)

/-- `RegressionDetector._check_api_changes` (lines 71-130), complete: the
endpoint rules followed by one risk per parameter change. -/
def check_api_changes (d : RegressionDetector) (removed added : List String)
    (file_path : String) : List RegressionRisk :=
  check_api_endpoint_risks d removed added file_path
    ++ (detect_parameter_changes d removed added).map
      (fun pc =>
        { type := "api_change"
          severity := if pc.removed ≠ [] then "high" else "medium"
          description := "Function parameters changed: " ++ pc.function
          affected_components := [file_path]
          mitigation := some "Update all callers or maintain backward compatibility"
          test_suggestions :=
            ["Test all calls to " ++ pc.function,
             "Verify parameter validation",
             "Check default parameter values"] })

/-- `RegressionDetector._check_behavior_changes` (regression.py lines
132-190): conditional-keyword changes, then `return`-line changes compared as
ordered lists (`removed_returns != added_returns`), then exception-keyword
changes. -/
def check_behavior_changes (removed added : List String) (file_path : String) :
    List RegressionRisk :=
  let removed_conditions :=
    removed.filter (fun l => ["if ", "elif ", "while ", "for "].any (strContains l ·))
  let added_conditions :=
    added.filter (fun l => ["if ", "elif ", "while ", "for "].any (strContains l ·))
  let controlFlowRisks : List RegressionRisk :=
    if removed_conditions ≠ [] ∧ added_conditions ≠ [] then
      [{ type := "behavior_change"
         severity := "high"
         description := "Control flow logic modified"
         affected_components := [file_path]
         mitigation := some "Ensure all edge cases are covered"
         test_suggestions :=
           ["Test all conditional branches", "Verify edge cases", "Check boundary conditions"] }]
    else []
  let removed_returns := removed.filter (fun l => strContains l "return ")
  let added_returns := added.filter (fun l => strContains l "return ")
  let returnRisks : List RegressionRisk :=
    if removed_returns ≠ added_returns then
      [{ type := "behavior_change"
         severity := "high"
         description := "Return values modified"
         affected_components := [file_path]
         mitigation := some "Verify all callers handle new return values"
         test_suggestions :=
           ["Test return value compatibility", "Check error handling", "Verify type consistency"] }]
    else []
  let removed_exceptions :=
    removed.filter (fun l => ["except ", "raise ", "try:"].any (strContains l ·))
  let added_exceptions :=
    added.filter (fun l => ["except ", "raise ", "try:"].any (strContains l ·))
  let exceptionRisks : List RegressionRisk :=
    if removed_exceptions ≠ [] ∨ added_exceptions ≠ [] then
      [{ type := "behavior_change"
         severity := "medium"
         description := "Exception handling modified"
         affected_components := [file_path]
         mitigation := some "Ensure error handling remains robust"
         test_suggestions :=
           ["Test error scenarios", "Verify exception propagation", "Check error messages"] }]
    else []
  controlFlowRisks ++ returnRisks ++ exceptionRisks

/-- `RegressionDetector._check_performance_impacts` (lines 192-250). -/
def check_performance_impacts (removed added : List String) (file_path : String) :
    List RegressionRisk :=
  let removed_loops :=
    (removed.filter (fun l => ["for ", "while "].any (strContains l ·))).length
  let added_loops :=
    (added.filter (fun l => ["for ", "while "].any (strContains l ·))).length
  let loopRisks : List RegressionRisk :=
    if added_loops > removed_loops then
      [{ type := "performance"
         severity := "medium"
         description := "Additional loops added, potential performance impact"
         affected_components := [file_path]
         mitigation := some "Profile code and optimize if necessary"
         test_suggestions :=
           ["Run performance benchmarks", "Test with large datasets", "Monitor resource usage"] }]
    else []
  let db_patterns :=
    ["SELECT", "INSERT", "UPDATE", "DELETE", ".query(", ".filter(", ".all()", ".first()"]
  let removed_queries := (removed.filter (fun l => db_patterns.any (strContains l ·))).length
  let added_queries := (added.filter (fun l => db_patterns.any (strContains l ·))).length
  let queryRisks : List RegressionRisk :=
    if added_queries > removed_queries then
      [{ type := "performance"
         severity := "high"
         description := "Additional database queries detected"
         affected_components := [file_path]
         mitigation := some "Consider query optimization or caching"
         test_suggestions :=
           ["Profile database queries", "Check for N+1 query problems", "Test query performance"] }]
    else []
  let asyncRisks : List RegressionRisk :=
    if added.any (fun l => strContains l "async ") then
      let sync_io := added.filter (fun l => ["open(", "requests.", "urllib."].any (strContains l ·))
      if sync_io ≠ [] then
        [{ type := "performance"
           severity := "high"
           description := "Synchronous I/O in async function"
           affected_components := [file_path]
           mitigation := some "Use async I/O libraries"
           test_suggestions :=
             ["Test async performance", "Check for blocking operations", "Monitor event loop"] }]
      else []
    else []
  loopRisks ++ queryRisks ++ asyncRisks

/-- `RegressionDetector._check_security_impacts` (lines 252-320).  The
`break` after the first matching pattern of each regex list makes each list
contribute at most one risk, which is what the any-of-any test expresses. -/
def check_security_impacts (d : RegressionDetector) (removed added : List String)
    (file_path : String) : List RegressionRisk :=
  let sqlRisks : List RegressionRisk :=
    if d.sql_patterns.any (fun p => added.any p) then
      [{ type := "security"
         severity := "critical"
         description := "Potential SQL injection vulnerability"
         affected_components := [file_path]
         mitigation := some "Use parameterized queries"
         test_suggestions :=
           ["Test with malicious input", "Run security scanning tools", "Review query construction"] }]
    else []
  let auth_patterns := ["@login_required", "@requires_auth", "check_permission", "authenticate"]
  let removed_auth := removed.any (fun l => auth_patterns.any (strContains l ·))
  let added_auth := added.any (fun l => auth_patterns.any (strContains l ·))
  let authRisks : List RegressionRisk :=
    if removed_auth ∧ ¬ added_auth then
      [{ type := "security"
         severity := "critical"
         description := "Authentication/authorization checks removed"
         affected_components := [file_path]
         mitigation := some "Ensure proper access controls remain in place"
         test_suggestions :=
           ["Test unauthorized access attempts", "Verify permission checks", "Audit access logs"] }]
    else []
  let secretRisks : List RegressionRisk :=
    if d.secret_patterns.any (fun p => added.any p) then
      [{ type := "security"
         severity := "critical"
         description := "Hardcoded secrets detected"
         affected_components := [file_path]
         mitigation := some "Use environment variables or secret management service"
         test_suggestions :=
           ["Scan for exposed secrets", "Verify secret rotation", "Check environment configuration"] }]
    else []
  sqlRisks ++ authRisks ++ secretRisks

/-- Removed diff lines of a change: lines prefixed `-` excluding the `---`
header, with the prefix stripped (regression.py lines 49-50). -/
def removedLines (change : CodeChange) : List String :=
  (((change.diff.splitOn "\n").filter
      (fun l => l.startsWith "-" && !l.startsWith "---")).map (·.drop 1))

/-- Added diff lines of a change: lines prefixed `+` excluding the `+++`
header, with the prefix stripped (regression.py line 51). -/
def addedLines (change : CodeChange) : List String :=
  (((change.diff.splitOn "\n").filter
      (fun l => l.startsWith "+" && !l.startsWith "+++")).map (·.drop 1))

/-- `RegressionDetector._analyze_modification` (lines 44-69). -/
def analyze_modification (d : RegressionDetector) (change : CodeChange) :
    List RegressionRisk :=
  let removed := removedLines change
  let added := addedLines change
  check_api_changes d removed added change.file_path
    ++ check_behavior_changes removed added change.file_path
    ++ check_performance_impacts removed added change.file_path
    ++ check_security_impacts d removed added change.file_path

/-- `RegressionDetector._analyze_addition` (lines 356-375). -/
def analyze_addition (change : CodeChange) : List RegressionRisk :=
  if strContains change.diff "import" || strContains change.diff "require" then
    [{ type := "behavior_change"
       severity := "low"
       description := "New dependencies introduced"
       affected_components := [change.file_path]
       mitigation := some "Verify dependency compatibility and security"
       test_suggestions :=
         ["Check dependency versions", "Run security audit", "Test in isolated environment"] }]
  else []

/-- `RegressionDetector._analyze_rename` (lines 377-394). -/
def analyze_rename (change : CodeChange) : List RegressionRisk :=
  [{ type := "api_change"
     severity := "medium"
     description := "File renamed: " ++ change.file_path
     affected_components := [change.file_path]
     mitigation := some "Update all imports and references"
     test_suggestions :=
       ["Verify all imports are updated", "Check configuration files", "Test module loading"] }]

/-- `RegressionDetector._analyze_cross_file_impacts` (lines 396-437).  The
`modified_interfaces` set is listed in insertion order (Python set iteration
order is fixed within a process). -/
def analyze_cross_file_impacts (changes : List CodeChange) : List RegressionRisk :=
  let modified_interfaces :=
    dedupFirst ((changes.filter
        (fun c => c.change_type = "modify"
          && ["class ", "interface ", "trait "].any (strContains c.diff ·))).map (·.file_path))
  let interfaceRisks : List RegressionRisk :=
    if modified_interfaces.length > 1 then
      [{ type := "behavior_change"
         severity := "high"
         description := "Multiple interfaces modified simultaneously"
         affected_components := modified_interfaces
         mitigation := some "Ensure all implementations are updated consistently"
         test_suggestions :=
           ["Run integration tests", "Verify interface contracts", "Check for version mismatches"] }]
    else []
  let cascadeRisks : List RegressionRisk :=
    if changes.length > 10 then
      [{ type := "behavior_change"
         severity := "medium"
         description := "Large number of files changed"
         affected_components := (changes.take 5).map (·.file_path) ++ ["..."]
         mitigation := some "Consider breaking into smaller, incremental changes"
         test_suggestions :=
           ["Run comprehensive test suite", "Perform staged rollout",
            "Monitor system behavior closely"] }]
    else []
  interfaceRisks ++ cascadeRisks

/-- Deduplication key of `_deduplicate_risks`:
`(risk.type, risk.description, tuple(risk.affected_components))`. -/
def riskKey (r : RegressionRisk) : String × String × List String :=
  (r.type, r.description, r.affected_components)

/-- Worker for `deduplicate_risks` with the explicit `seen` key set. -/
def dedupRisksAux (seen : List (String × String × List String)) :
    List RegressionRisk → List RegressionRisk
  | [] => []
  | r :: rs =>
      if riskKey r ∈ seen then dedupRisksAux seen rs
      else r :: dedupRisksAux (riskKey r :: seen) rs

/-- `RegressionDetector._deduplicate_risks` (regression.py lines 458-469). -/
def deduplicate_risks (risks : List RegressionRisk) : List RegressionRisk :=
  dedupRisksAux [] risks

/-- `RegressionDetector._risk_priority` (regression.py lines 471-490). -/
def risk_priority (r : RegressionRisk) : Nat :=
  let severity_scores := [("critical", 4), ("high", 3), ("medium", 2), ("low", 1)]
  let type_scores := [("security", 4), ("api_change", 3), ("behavior_change", 2), ("performance", 1)]
  ((severity_scores.lookup r.severity).getD 0) * 10 + ((type_scores.lookup r.type).getD 0)

/-- Risk gathering of `RegressionDetector.analyze_changes` (lines 25-37):
per-change family dispatch on the change type, then the cross-file rules. -/
def collect_risks (d : RegressionDetector) (changes : List CodeChange) :
    List RegressionRisk :=
  (changes.foldl
    (fun risks change =>
      if change.change_type = "modify" ∨ change.change_type = "delete" then
        risks ++ analyze_modification d change
      else if change.change_type = "add" then
        risks ++ analyze_addition change
      else if change.change_type = "rename" then
        risks ++ analyze_rename change
      else risks)
    [])
  ++ analyze_cross_file_impacts changes

/-- `RegressionDetector.analyze_changes` (regression.py lines 23-42): gather,
deduplicate, and stably sort descending by `_risk_priority`
(`sorted(..., reverse=True)`).  The `context` argument is threaded to every
family exactly as in the source, where none of them reads it. -/
def analyze_changes (d : RegressionDetector) (changes : List CodeChange)
    (context : α) : List RegressionRisk :=
  pySortedDesc risk_priority (deduplicate_risks (collect_risks d changes))

/-! ## Specification-side definitions

These follow the wording of the specification (not the code) and are only
used on the right-hand side of refinement statements. -/

/-- Per-node contribution counted by `_calculate_complexity`: 1 per branching
construct, fan-in minus one per boolean operation. -/
def fileContrib : PyAst → Nat
  | .node k cs => if isBranchKind k then 1 else if k = .boolOpK then cs.length - 1 else 0

/-- Per-node contribution counted by `_calculate_function_complexity`: 1 per
branching construct only. -/
def fnContrib : PyAst → Nat
  | .node k _ => if isBranchKind k then 1 else 0

/-- Risk priority as the claim words it: fixed weight tables
critical=4, high=3, medium=2, low=1 and security=4, api_change=3,
behavior_change=2, performance=1, combined as severity·10 + type. -/
def claim_priority (r : RegressionRisk) : Nat :=
  (if r.severity = "critical" then 4
   else if r.severity = "high" then 3
   else if r.severity = "medium" then 2
   else if r.severity = "low" then 1
   else 0) * 10 +
  (if r.type = "security" then 4
   else if r.type = "api_change" then 3
   else if r.type = "behavior_change" then 2
   else if r.type = "performance" then 1
   else 0)

/-- Step `B` depends on step `A` in the sense read off by
`_order_by_dependencies`: one of `B`'s dependency entries names `A.id`
literally, or is a wildcard whose prefix matches `A.id`. -/
def DependsOn (B A : RefactorStep) : Prop :=
  ∃ dep ∈ B.dependencies,
    (strEndsWith dep "*" = true ∧ strStartsWith A.id (strDropRight dep 1) = true)
    ∨ (strEndsWith dep "*" = false ∧ dep = A.id)

/-! ## Concrete inputs used in claim witnesses and counterexamples -/

/-- Service analysis referencing the `users` table (as produced for a service
whose code contains `SELECT ... FROM users`). -/
def authShared : ServiceAnalysis :=
  { name := "auth", path := "services/auth-service",
    files := ["services/auth-service/app.py"], total_lines := 120, complexity := 3,
    api_endpoints := [], database_tables := ["users"],
    external_dependencies := [], internal_calls := [] }

/-- Second service analysis also referencing the `users` table. -/
def billingShared : ServiceAnalysis :=
  { name := "billing", path := "services/billing-service",
    files := ["services/billing-service/app.py"], total_lines := 150, complexity := 4,
    api_endpoints := [], database_tables := ["users", "invoices"],
    external_dependencies := [], internal_calls := [] }

/-- An endpoint declared by the auth service. -/
def loginEndpoint : Endpoint :=
  { path := "/api/auth/login", method := "GET", framework := "flask" }

/-- Auth service analysis declaring `loginEndpoint`, no tables. -/
def authApi : ServiceAnalysis :=
  { name := "auth", path := "services/auth-service",
    files := ["services/auth-service/app.py"], total_lines := 80, complexity := 2,
    api_endpoints := [loginEndpoint], database_tables := [],
    external_dependencies := [], internal_calls := [] }

/-- User service analysis, no tables, whose code (`userApiCallerCode`)
textually contains the auth endpoint's path. -/
def userApi : ServiceAnalysis :=
  { name := "user", path := "services/user-service",
    files := ["services/user-service/app.py"], total_lines := 60, complexity := 2,
    api_endpoints := [], database_tables := [],
    external_dependencies := ["requests"], internal_calls := [] }

/-- Content of `services/user-service/app.py` in the scenario of the
dependency-detection claim: it calls the auth endpoint by literal path. -/
def userApiCallerCode : String :=
  "auth = requests.get('http://auth-service/api/auth/login')"

/-- A quiet service: no endpoints, no tables. -/
def cleanService : ServiceAnalysis :=
  { name := "svc", path := "services/svc",
    files := ["services/svc/app.py"], total_lines := 40, complexity := 4,
    api_endpoints := [], database_tables := [],
    external_dependencies := [], internal_calls := [] }

/-- The analysis record `analyze_architecture` produces on
`[("svc", cleanService)]`. -/
def cleanResult : ArchitectureAnalysis :=
  { services := [("svc", cleanService)]
    dependencies := []
    code_smells := []
    metrics :=
      { total_services := 1, total_dependencies := 0,
        avg_service_complexity := 4, coupling_score := 0,
        avg_endpoints_per_service := 0 }
    risk_areas := [] }

/-- Function node containing a two-operand boolean operation and no branching
construct (e.g. `def f(): x = a or b`). -/
def boolOpFunc : PyAst :=
  .node .functionDefK [.node .otherK [.node .boolOpK [.node .otherK [], .node .otherK []]]]

/-- Module consisting of `boolOpFunc` alone. -/
def boolOpModule : PyAst := .node .moduleK [boolOpFunc]

/-- Step depending (literally) on `cycle-b`. -/
def cycleStepA : RefactorStep :=
  { id := "cycle-a", type := "restructure", description := "first half of a cycle",
    dependencies := ["cycle-b"], estimated_effort := 8, risk_level := "low" }

/-- Step depending (literally) on `cycle-a`, closing the cycle. -/
def cycleStepB : RefactorStep :=
  { id := "cycle-b", type := "restructure", description := "second half of a cycle",
    dependencies := ["cycle-a"], estimated_effort := 8, risk_level := "low" }

/-- A two-step plan whose dependency graph is a two-cycle. -/
def cycleSteps : List RefactorStep := [cycleStepA, cycleStepB]

/-- Dependency-free step `wd-a`. -/
def wdStepA : RefactorStep :=
  { id := "wd-a", type := "database_migration", description := "separate databases",
    dependencies := [], estimated_effort := 24, risk_level := "high" }

/-- Step `wd-b` depending literally on `wd-a`. -/
def wdStepB : RefactorStep :=
  { id := "wd-b", type := "restructure", description := "restructure services",
    dependencies := ["wd-a"], estimated_effort := 16, risk_level := "medium" }

/-- Acyclic two-step plan listed in dependency-violating order. -/
def wdSteps : List RefactorStep := [wdStepB, wdStepA]

/-- Risk with affected components `["a", "b"]`. -/
def riskAB : RegressionRisk :=
  { type := "behavior_change", severity := "high",
    description := "Control flow logic modified", affected_components := ["a", "b"] }

/-- Risk identical to `riskAB` except that the affected components are listed
in the opposite order. -/
def riskBA : RegressionRisk :=
  { type := "behavior_change", severity := "high",
    description := "Control flow logic modified", affected_components := ["b", "a"] }

/-! # Theorems -/

/-! ## C9: determinism of the regression classifier -/

/-- Claim C9: `classifyRegressionRisks` is deterministic — the embedding of
`analyze_changes` is a pure function of the detector state and the change
list, so two invocations on the same input (even with different context
values, which no rule family reads) return lists identical in content and
order.  Within a process the Python function is likewise pure: the detector's
compiled patterns are fixed at construction and set iteration order is fixed
for a given interpreter run. -/
theorem analyze_changes_deterministic (d : RegressionDetector)
    (changes : List CodeChange) {α β : Type} (context₁ : α) (context₂ : β) :
    analyze_changes d changes context₁ = analyze_changes d changes context₂ := rfl

/-! ## C7: risk deduplication -/

theorem dedupRisksAux_sublist (risks : List RegressionRisk) :
    ∀ seen, List.Sublist (dedupRisksAux seen risks) risks := by
  induction risks with
  | nil => intro seen; simp [dedupRisksAux]
  | cons r rs ih =>
      intro seen
      simp only [dedupRisksAux]
      split
      · exact List.Sublist.cons r (ih seen)
      · exact List.Sublist.cons₂ r (ih _)

theorem mem_dedupRisksAux_key (risks : List RegressionRisk) :
    ∀ seen r, r ∈ dedupRisksAux seen risks → riskKey r ∉ seen := by
  induction risks with
  | nil => intro seen r h; simp [dedupRisksAux] at h
  | cons s rs ih =>
      intro seen r h
      simp only [dedupRisksAux] at h
      split at h
      · exact ih seen r h
      · rcases List.mem_cons.mp h with rfl | h
        · assumption
        · intro hseen
          exact ih _ r h (List.mem_cons_of_mem _ hseen)

theorem dedupRisksAux_pairwise (risks : List RegressionRisk) :
    ∀ seen, (dedupRisksAux seen risks).Pairwise (fun a b => riskKey a ≠ riskKey b) := by
  induction risks with
  | nil => intro seen; simp [dedupRisksAux]
  | cons r rs ih =>
      intro seen
      simp only [dedupRisksAux]
      split
      · exact ih seen
      · refine List.Pairwise.cons ?_ (ih _)
        intro b hb hkey
        exact mem_dedupRisksAux_key rs _ b hb (hkey ▸ List.mem_cons_self _ _)

theorem dedupRisksAux_covers (risks : List RegressionRisk) :
    ∀ seen r, r ∈ risks →
      riskKey r ∈ seen ∨ ∃ s ∈ dedupRisksAux seen risks, riskKey s = riskKey r := by
  induction risks with
  | nil => intro seen r h; cases h
  | cons a rs ih =>
      intro seen r hr
      simp only [dedupRisksAux]
      rcases List.mem_cons.mp hr with rfl | hr
      · split
        · left; assumption
        · right; exact ⟨r, by simp, rfl⟩
      · split
        · exact ih seen r hr
        · rcases ih (riskKey a :: seen) r hr with hseen | ⟨s, hs, hk⟩
          · rcases List.mem_cons.mp hseen with heq | hseen'
            · right; exact ⟨a, by simp, heq.symm⟩
            · left; exact hseen'
          · right; exact ⟨s, List.mem_cons_of_mem _ hs, hk⟩

/-- Claim C7 counterexample: two risks agreeing in type, description and
affected-component *set* (the lists are permutations of each other) are NOT
collapsed by `_deduplicate_risks`, because its key uses the component list as
an ordered tuple. -/
theorem deduplicate_risks_order_sensitive :
    riskAB.type = riskBA.type ∧ riskAB.description = riskBA.description ∧
    riskAB.affected_components.Perm riskBA.affected_components ∧
    deduplicate_risks [riskAB, riskBA] = [riskAB, riskBA] := by
  refine ⟨rfl, rfl, ?_, by decide⟩
  decide

/-- Claim C7 (corrected): `_deduplicate_risks` collapses risks whose type,
description and affected-component list — order- and multiplicity-sensitive —
coincide: the output is a subsequence of the input in which every key occurs
exactly once, and every input key is still represented. -/
theorem deduplicate_risks_key_spec (risks : List RegressionRisk) :
    List.Sublist (deduplicate_risks risks) risks ∧
    (deduplicate_risks risks).Pairwise (fun a b => riskKey a ≠ riskKey b) ∧
    ∀ r ∈ risks, ∃ s ∈ deduplicate_risks risks, riskKey s = riskKey r := by
  refine ⟨dedupRisksAux_sublist risks [], dedupRisksAux_pairwise risks [], ?_⟩
  intro r hr
  rcases dedupRisksAux_covers risks [] r hr with h | h
  · cases h
  · exact h

/-- Witness for the corrected C7 statement at a concrete input: the two
permuted risks survive deduplication and each is its own key
representative. -/
theorem deduplicate_risks_key_spec_witness :
    List.Sublist (deduplicate_risks [riskAB, riskBA]) [riskAB, riskBA] ∧
    (deduplicate_risks [riskAB, riskBA]).Pairwise (fun a b => riskKey a ≠ riskKey b) ∧
    ∃ s ∈ deduplicate_risks [riskAB, riskBA], riskKey s = riskKey riskBA :=
  ⟨(deduplicate_risks_key_spec [riskAB, riskBA]).1,
   (deduplicate_risks_key_spec [riskAB, riskBA]).2.1,
   (deduplicate_risks_key_spec [riskAB, riskBA]).2.2 riskBA (by decide)⟩

/-! ## C8: return-value behaviour risk -/

/-- Claim C8 counterexample: the removed and added `return` lines are equal
as multisets (one is a permutation of the other) but ordered differently, and
the `behavior_change`/high "Return values modified" risk IS emitted —
`_check_behavior_changes` compares the two ordered lists, not multisets. -/
theorem return_risk_multiset_counterexample :
    (["return 1", "return 2"].filter (fun l => strContains l "return ")).Perm
      (["return 2", "return 1"].filter (fun l => strContains l "return ")) ∧
    (check_behavior_changes ["return 1", "return 2"] ["return 2", "return 1"]
        "svc/app.py").any
      (fun r => r.description == "Return values modified"
        && r.type == "behavior_change" && r.severity == "high") = true := by
  constructor
  · decide
  · decide

/-- Claim C8 (corrected): for a modify or delete change, the
`behavior_change`/high "Return values modified" risk is emitted if and only
if the *ordered sequence* of removed diff lines containing `return ` differs
from the ordered sequence of added diff lines containing `return `. -/
theorem return_risk_iff (removed added : List String) (file_path : String) :
    ((check_behavior_changes removed added file_path).any
        (fun r => r.description == "Return values modified"
          && r.type == "behavior_change" && r.severity == "high")) = true
      ↔ removed.filter (fun l => strContains l "return ")
          ≠ added.filter (fun l => strContains l "return ") := by
  unfold check_behavior_changes
  dsimp only
  split_ifs with h1 h2 h3 <;> simp_all

/-! ## C6: cyclomatic complexity -/

theorem foldl_add_contrib (g : PyAst → Nat) (l : List PyAst) :
    ∀ a : Nat, l.foldl (fun c n => c + g n) a = a + (l.map g).sum := by
  induction l with
  | nil => intro a; simp
  | cons x xs ih => intro a; simp [ih, Nat.add_assoc]

mutual

theorem walk_sum_fnContrib : ∀ t : PyAst, ((walk t).map fnContrib).sum = branchCount t
  | .node k cs => by
      simp [walk, branchCount, fnContrib, walkL_sum_fnContrib cs]

theorem walkL_sum_fnContrib : ∀ cs : List PyAst,
    ((walkL cs).map fnContrib).sum = branchCountL cs
  | [] => by simp [walkL, branchCountL]
  | c :: cs => by
      simp [walkL, branchCountL, walk_sum_fnContrib c, walkL_sum_fnContrib cs]

end

mutual

theorem walk_sum_fileContrib : ∀ t : PyAst,
    ((walk t).map fileContrib).sum = branchCount t + boolOpSum t
  | .node k cs => by
      have hcs := walkL_sum_fileContrib cs
      cases k <;>
        simp [walk, branchCount, boolOpSum, fileContrib, isBranchKind, hcs] <;> omega

theorem walkL_sum_fileContrib : ∀ cs : List PyAst,
    ((walkL cs).map fileContrib).sum = branchCountL cs + boolOpSumL cs
  | [] => by simp [walkL, branchCountL, boolOpSumL]
  | c :: cs => by
      simp [walkL, branchCountL, boolOpSumL, walk_sum_fileContrib c,
        walkL_sum_fileContrib cs]
      omega

end

theorem calculate_complexity_eq_sum (t : PyAst) :
    calculate_complexity t = 1 + ((walk t).map fileContrib).sum := by
  unfold calculate_complexity
  have hstep : (fun (complexity : Nat) (n : PyAst) =>
      match n with
      | .node k cs =>
          if isBranchKind k then complexity + 1
          else if k = .boolOpK then complexity + (cs.length - 1)
          else complexity) = fun c n => c + fileContrib n := by
    funext c n
    cases n with
    | node k cs => simp only [fileContrib]; split_ifs <;> simp
  rw [hstep, foldl_add_contrib]

theorem calculate_function_complexity_eq_sum (f : PyAst) :
    calculate_function_complexity f = 1 + ((walk f).map fnContrib).sum := by
  unfold calculate_function_complexity
  have hstep : (fun (complexity : Nat) (n : PyAst) =>
      match n with
      | .node k _ => if isBranchKind k then complexity + 1 else complexity)
      = fun c n => c + fnContrib n := by
    funext c n
    cases n with
    | node k cs => simp only [fnContrib]; split_ifs <;> simp
  rw [hstep, foldl_add_contrib]

/-- Claim C6 counterexample: on a function whose body contains a two-operand
boolean operation and no branching construct, `_calculate_function_complexity`
returns 1 while the claimed formula (1 + branching + boolean fan-in − 1)
gives 2; the whole-file computation on the enclosing module does return 2, so
the two computations disagree on this input. -/
theorem function_complexity_misses_boolops :
    calculate_function_complexity boolOpFunc
        ≠ 1 + branchCount boolOpFunc + boolOpSum boolOpFunc ∧
    calculate_function_complexity boolOpFunc = 1 ∧
    calculate_complexity boolOpModule = 2 := by
  refine ⟨?_, ?_, ?_⟩ <;> decide

/-- Claim C6 (corrected): the whole-file complexity of
`_calculate_complexity` equals 1 plus the count of branching constructs plus
the summed boolean-operator fan-in minus one per boolean operator, but the
per-function complexity of `_calculate_function_complexity` equals 1 plus the
count of branching constructs only — the boolean-operator term is absent, so
the two computations disagree exactly on functions containing boolean
operators. -/
theorem complexity_formulas :
    (∀ t : PyAst, calculate_complexity t = 1 + branchCount t + boolOpSum t) ∧
    (∀ f : PyAst, calculate_function_complexity f = 1 + branchCount f) := by
  constructor
  · intro t
    rw [calculate_complexity_eq_sum, walk_sum_fileContrib t, Nat.add_assoc]
  · intro f
    rw [calculate_function_complexity_eq_sum, walk_sum_fnContrib f]

/-! ## C10: deterministic severity ranking -/

theorem mem_stableInsertDesc {α : Type} (f : α → Nat) (x b : α) (l : List α) :
    b ∈ stableInsertDesc f x l ↔ b = x ∨ b ∈ l := by
  induction l with
  | nil => simp [stableInsertDesc]
  | cons y ys ih =>
      simp only [stableInsertDesc]
      split
      · simp
      · simp only [List.mem_cons, ih]
        tauto

theorem pairwise_stableInsertDesc {α : Type} (f : α → Nat) (x : α) (l : List α)
    (h : l.Pairwise (fun a b => f b ≤ f a)) :
    (stableInsertDesc f x l).Pairwise (fun a b => f b ≤ f a) := by
  induction l with
  | nil => simp [stableInsertDesc]
  | cons y ys ih =>
      rw [List.pairwise_cons] at h
      obtain ⟨hy, hys⟩ := h
      simp only [stableInsertDesc]
      split
      · rename_i hlt
        refine List.Pairwise.cons ?_ (List.Pairwise.cons hy hys)
        intro b hb
        rcases List.mem_cons.mp hb with rfl | hb
        · exact Nat.le_of_lt hlt
        · exact Nat.le_of_lt (Nat.lt_of_le_of_lt (hy b hb) hlt)
      · rename_i hge
        refine List.Pairwise.cons ?_ (ih hys)
        intro b hb
        rcases (mem_stableInsertDesc f x b ys).mp hb with rfl | hb
        · omega
        · exact hy b hb

theorem filter_stableInsertDesc {α : Type} (f : α → Nat) (k : Nat) (x : α)
    (l : List α) (h : l.Pairwise (fun a b => f b ≤ f a)) :
    (stableInsertDesc f x l).filter (fun a => f a = k) =
      if f x = k then (l.filter (fun a => f a = k)) ++ [x]
      else l.filter (fun a => f a = k) := by
  induction l with
  | nil => by_cases hk : f x = k <;> simp [stableInsertDesc, hk]
  | cons y ys ih =>
      rw [List.pairwise_cons] at h
      obtain ⟨hy, hys⟩ := h
      simp only [stableInsertDesc]
      split
      · rename_i hlt
        by_cases hk : f x = k
        · have hynil : (y :: ys).filter (fun a => decide (f a = k)) = [] := by
            rw [List.filter_eq_nil_iff]
            intro b hb
            rcases List.mem_cons.mp hb with rfl | hb
            · simp; omega
            · have := hy b hb; simp; omega
          simp only [List.filter_cons] at hynil ⊢
          simp [hk, hynil] at *
          simp_all
        · simp [List.filter_cons, hk]
      · rename_i hge
        rw [List.filter_cons, List.filter_cons, ih hys]
        by_cases hk : f x = k <;> by_cases hyk : f y = k <;> simp [hk, hyk]

theorem pairwise_pySortedDesc {α : Type} (f : α → Nat) (l : List α) :
    (pySortedDesc f l).Pairwise (fun a b => f b ≤ f a) := by
  suffices h : ∀ acc : List α, acc.Pairwise (fun a b => f b ≤ f a) →
      (l.foldl (fun acc x => stableInsertDesc f x acc) acc).Pairwise
        (fun a b => f b ≤ f a) from h [] (by simp)
  induction l with
  | nil => intro acc h; simpa using h
  | cons x xs ih =>
      intro acc h
      simpa using ih _ (pairwise_stableInsertDesc f x acc h)

theorem filter_pySortedDesc {α : Type} (f : α → Nat) (k : Nat) (l : List α) :
    (pySortedDesc f l).filter (fun a => f a = k) = l.filter (fun a => f a = k) := by
  suffices h : ∀ acc : List α, acc.Pairwise (fun a b => f b ≤ f a) →
      ((l.foldl (fun acc x => stableInsertDesc f x acc) acc).filter
          (fun a => f a = k))
        = acc.filter (fun a => f a = k) ++ l.filter (fun a => f a = k) by
    simpa using h [] (by simp)
  induction l with
  | nil => intro acc h; simp
  | cons x xs ih =>
      intro acc h
      simp only [List.foldl_cons]
      rw [ih _ (pairwise_stableInsertDesc f x acc h),
        filter_stableInsertDesc f k x acc h, List.filter_cons]
      by_cases hk : f x = k <;> simp [hk]

theorem str_beq_false_of_ne {a b : String} (h : a ≠ b) : (a == b) = false := by
  simpa using h

theorem risk_priority_eq_claim (r : RegressionRisk) :
    risk_priority r = claim_priority r := by
  unfold risk_priority claim_priority
  by_cases h1 : r.severity = "critical" <;>
    by_cases h2 : r.severity = "high" <;>
    by_cases h3 : r.severity = "medium" <;>
    by_cases h4 : r.severity = "low" <;>
    by_cases t1 : r.type = "security" <;>
    by_cases t2 : r.type = "api_change" <;>
    by_cases t3 : r.type = "behavior_change" <;>
    by_cases t4 : r.type = "performance" <;>
    simp_all [List.lookup, str_beq_false_of_ne]

/-- Claim C10: the list returned by `analyze_changes` is sorted in descending
order of `_risk_priority` (which is severity-weight·10 + type-weight with the
tables critical=4, high=3, medium=2, low=1 and security=4, api_change=3,
behavior_change=2, performance=1), and risks of equal priority appear exactly
in the order they were discovered (the order of the deduplicated collected
list). -/
theorem analyze_changes_sorted_stable (d : RegressionDetector)
    (changes : List CodeChange) {α : Type} (context : α) :
    (analyze_changes d changes context).Pairwise
        (fun a b => risk_priority b ≤ risk_priority a) ∧
    (∀ k : Nat, (analyze_changes d changes context).filter
          (fun r => risk_priority r = k)
        = (deduplicate_risks (collect_risks d changes)).filter
          (fun r => risk_priority r = k)) ∧
    (∀ r : RegressionRisk, risk_priority r = claim_priority r) :=
  ⟨pairwise_pySortedDesc risk_priority _,
   fun k => filter_pySortedDesc risk_priority k _,
   risk_priority_eq_claim⟩

/-! ## Kahn's algorithm: soundness and completeness

These lemmas justify that `topoSort` implements the documented contract of
`networkx.topological_sort`: on an acyclic graph it returns an order in which
every edge goes from an earlier to a later node, and it fails exactly when
the graph has a cycle. -/

theorem noIncoming_true (edges : List (String × String)) (rem : List String)
    (v : String) (h : noIncoming edges rem v = true)
    (u : String) (hu : (u, v) ∈ edges) : u ∉ rem := by
  simp only [noIncoming, List.all_eq_true] at h
  have h2 := h (u, v) hu
  intro hmem
  simp only [beq_self_eq_true, Bool.true_and, Bool.not_eq_true'] at h2
  exact absurd (List.elem_iff.mpr hmem) (by simp [h2, List.contains] at h2 ⊢; exact h2)

theorem noIncoming_false (edges : List (String × String)) (rem : List String)
    (v : String) (h : noIncoming edges rem v = false) :
    ∃ u ∈ rem, (u, v) ∈ edges := by
  by_contra hcon
  push_neg at hcon
  suffices htrue : noIncoming edges rem v = true by simp [htrue] at h
  simp only [noIncoming, List.all_eq_true]
  intro e he
  simp only [Bool.not_eq_true', Bool.and_eq_false_iff, beq_eq_false_iff_ne, ne_eq]
  by_cases h2 : e.2 = v
  · right
    by_cases hmem : e.1 ∈ rem
    · exfalso
      apply hcon e.1 hmem
      have he2 : e = (e.1, v) := by rw [← h2]
      rwa [he2] at he
    · exact Bool.eq_false_iff.mpr (fun hc => hmem (List.elem_iff.mp hc))
  · left; exact h2

theorem kahnAux_spec (edges : List (String × String)) :
    ∀ (fuel : Nat) (rem : List String) (l : List String),
      rem.Nodup → kahnAux edges fuel rem = some l →
      l.Nodup ∧ (∀ x, x ∈ l ↔ x ∈ rem) ∧
      (∀ u w, (u, w) ∈ edges → u ∈ rem → w ∈ rem →
        l.indexOf u < l.indexOf w) := by
  intro fuel
  induction fuel with
  | zero =>
      intro rem l hnd h
      simp only [kahnAux] at h
      split at h
      · rename_i hemp
        cases h
        have hrem : rem = [] := List.isEmpty_iff.mp hemp
        subst hrem
        exact ⟨List.nodup_nil, by simp, by simp⟩
      · cases h
  | succ fuel ih =>
      intro rem l hnd h
      simp only [kahnAux] at h
      split at h
      · rename_i hemp
        cases h
        have hrem : rem = [] := List.isEmpty_iff.mp hemp
        subst hrem
        exact ⟨List.nodup_nil, by simp, by simp⟩
      · rename_i hemp
        cases hfind : rem.find? (noIncoming edges rem) with
        | none => rw [hfind] at h; cases h
        | some v =>
            rw [hfind] at h
            dsimp only at h
            cases hrec : kahnAux edges fuel (rem.erase v) with
            | none => rw [hrec] at h; cases h
            | some l2 =>
                rw [hrec] at h
                simp only [Option.map_some', Option.some.injEq] at h
                subst h
                have hvmem : v ∈ rem := List.mem_of_find?_eq_some hfind
                have hvpred : noIncoming edges rem v = true := List.find?_some hfind
                have hnd2 : (rem.erase v).Nodup := hnd.erase v
                obtain ⟨hl2nd, hl2mem, hl2ord⟩ := ih (rem.erase v) l2 hnd2 hrec
                refine ⟨?_, ?_, ?_⟩
                · rw [List.nodup_cons]
                  refine ⟨?_, hl2nd⟩
                  intro hvin
                  exact hnd.not_mem_erase ((hl2mem v).mp hvin)
                · intro x
                  constructor
                  · intro hx
                    rcases List.mem_cons.mp hx with rfl | hx
                    · exact hvmem
                    · exact List.mem_of_mem_erase ((hl2mem x).mp hx)
                  · intro hx
                    by_cases hxv : x = v
                    · exact hxv ▸ List.mem_cons_self _ _
                    · exact List.mem_cons_of_mem _
                        ((hl2mem x).mpr ((List.mem_erase_of_ne hxv).mpr hx))
                · intro u w huw hu hw
                  by_cases hwv : w = v
                  · subst hwv
                    exact absurd hu (noIncoming_true edges rem w hvpred u huw)
                  · have hw2 : w ∈ rem.erase v := (List.mem_erase_of_ne hwv).mpr hw
                    have hvw : v ≠ w := fun h2 => hwv h2.symm
                    by_cases huv : u = v
                    · subst huv
                      rw [List.indexOf_cons_self, List.indexOf_cons_ne _ hvw]
                      exact Nat.succ_pos _
                    · have hu2 : u ∈ rem.erase v := (List.mem_erase_of_ne huv).mpr hu
                      have hvu : v ≠ u := fun h2 => huv h2.symm
                      rw [List.indexOf_cons_ne _ hvu, List.indexOf_cons_ne _ hvw]
                      exact Nat.succ_lt_succ (hl2ord u w huw hu2 hw2)

theorem chain_reach (edges : List (String × String)) (f : Nat → String)
    (hf : ∀ n, (f (n + 1), f n) ∈ edges) :
    ∀ m n : Nat, m < n → Reach edges (f n) (f m) := by
  intro m n h
  induction n with
  | zero => omega
  | succ n ihn =>
      rcases Nat.lt_succ_iff_lt_or_eq.mp h with h2 | h2
      · exact Reach.tail (hf n) (ihn h2)
      · subst h2; exact Reach.single (hf m)

theorem allIncoming_hasCycle (edges : List (String × String)) (rem : List String)
    (hne : rem ≠ []) (hall : ∀ v ∈ rem, ∃ u ∈ rem, (u, v) ∈ edges) :
    HasCycle edges := by
  choose g hg1 hg2 using hall
  obtain ⟨v0, hv0⟩ := List.exists_mem_of_ne_nil rem hne
  let F : Nat → {v : String // v ∈ rem} := fun n =>
    Nat.rec (motive := fun _ => {v : String // v ∈ rem})
      ⟨v0, hv0⟩ (fun _ p => ⟨g p.1 p.2, hg1 p.1 p.2⟩) n
  have hFedge : ∀ n : Nat, ((F (n + 1)).1, (F n).1) ∈ edges := by
    intro n
    exact hg2 (F n).1 (F n).2
  have hcard : rem.toFinset.card < (Finset.univ : Finset (Fin (rem.length + 1))).card := by
    rw [Finset.card_univ, Fintype.card_fin]
    exact Nat.lt_succ_of_le rem.toFinset_card_le
  obtain ⟨i, _, j, _, hij, heq⟩ :=
    Finset.exists_ne_map_eq_of_card_lt_of_maps_to hcard
      (fun (i : Fin (rem.length + 1)) _ => List.mem_toFinset.mpr (F i.1).2)
  have heq2 : (F i.1).1 = (F j.1).1 := heq
  rcases Nat.lt_or_ge i.1 j.1 with hlt | hge
  · refine ⟨(F j.1).1, ?_⟩
    have hr : Reach edges (F j.1).1 (F i.1).1 :=
      chain_reach edges (fun n => (F n).1) hFedge i.1 j.1 hlt
    rw [heq2] at hr
    exact hr
  · have hlt : j.1 < i.1 := by
      rcases Nat.lt_or_ge j.1 i.1 with h2 | h2
      · exact h2
      · exact absurd (Fin.ext (Nat.le_antisymm h2 hge)) hij
    refine ⟨(F i.1).1, ?_⟩
    have hr : Reach edges (F i.1).1 (F j.1).1 :=
      chain_reach edges (fun n => (F n).1) hFedge j.1 i.1 hlt
    rw [← heq2] at hr
    exact hr

theorem kahnAux_total (edges : List (String × String)) (hnc : ¬ HasCycle edges) :
    ∀ (fuel : Nat) (rem : List String), rem.length ≤ fuel →
      ∃ l, kahnAux edges fuel rem = some l := by
  intro fuel
  induction fuel with
  | zero =>
      intro rem hlen
      have hrem : rem = [] := List.eq_nil_of_length_eq_zero (Nat.le_zero.mp hlen)
      subst hrem
      exact ⟨[], by simp [kahnAux]⟩
  | succ fuel ih =>
      intro rem hlen
      by_cases hemp : rem.isEmpty
      · exact ⟨[], by simp [kahnAux, hemp]⟩
      · have hne : rem ≠ [] := fun h2 => by simp [h2] at hemp
        cases hfind : rem.find? (noIncoming edges rem) with
        | none =>
            exfalso
            apply hnc
            apply allIncoming_hasCycle edges rem hne
            intro v hv
            have hpred : noIncoming edges rem v = false := by
              have h2 := List.find?_eq_none.mp hfind v hv
              simpa using h2
            exact noIncoming_false edges rem v hpred
        | some v =>
            have hvmem : v ∈ rem := List.mem_of_find?_eq_some hfind
            have hpos : 0 < rem.length := List.length_pos.mpr hne
            have hlen2 : (rem.erase v).length ≤ fuel := by
              rw [List.length_erase_of_mem hvmem]
              omega
            obtain ⟨l2, hl2⟩ := ih (rem.erase v) hlen2
            refine ⟨v :: l2, ?_⟩
            simp [kahnAux, hemp, hfind, hl2]

theorem reach_indexOf_lt (edges : List (String × String)) (rem : List String)
    (l : List String)
    (hord : ∀ u w, (u, w) ∈ edges → u ∈ rem → w ∈ rem →
      l.indexOf u < l.indexOf w)
    (hep : ∀ e ∈ edges, e.1 ∈ rem ∧ e.2 ∈ rem) :
    ∀ u w, Reach edges u w → l.indexOf u < l.indexOf w := by
  intro u w hr
  induction hr with
  | single h => exact hord _ _ h (hep _ h).1 (hep _ h).2
  | tail h _ ih => exact Nat.lt_trans (hord _ _ h (hep _ h).1 (hep _ h).2) ih

theorem topoSort_none_of_hasCycle (g : Digraph) (hnd : g.nodes.Nodup)
    (hep : ∀ e ∈ g.edges, e.1 ∈ g.nodes ∧ e.2 ∈ g.nodes)
    (hc : HasCycle g.edges) : topoSort g = none := by
  cases h : topoSort g with
  | none => rfl
  | some l =>
      exfalso
      obtain ⟨_, _, hlord⟩ :=
        kahnAux_spec g.edges g.nodes.length g.nodes l hnd h
      obtain ⟨v, hv⟩ := hc
      exact Nat.lt_irrefl _ (reach_indexOf_lt g.edges g.nodes l hlord hep v v hv)

theorem topoSort_some_of_acyclic (g : Digraph) (hnc : ¬ HasCycle g.edges) :
    ∃ l, topoSort g = some l :=
  kahnAux_total g.edges hnc g.nodes.length g.nodes (Nat.le_refl _)

/-! ## Digraph primitive lemmas -/

theorem addNode_edges (g : Digraph) (v : String) : (g.addNode v).edges = g.edges := by
  unfold Digraph.addNode
  split <;> rfl

theorem mem_addNode_iff (g : Digraph) (v x : String) :
    x ∈ (g.addNode v).nodes ↔ x ∈ g.nodes ∨ x = v := by
  unfold Digraph.addNode
  split
  · rename_i h
    constructor
    · exact Or.inl
    · rintro (h2 | rfl)
      · exact h2
      · exact List.elem_iff.mp h
  · simp

theorem mem_addNode_self (g : Digraph) (v : String) : v ∈ (g.addNode v).nodes :=
  (mem_addNode_iff g v v).mpr (Or.inr rfl)

theorem mem_addNode_of_mem (g : Digraph) (v x : String) (h : x ∈ g.nodes) :
    x ∈ (g.addNode v).nodes :=
  (mem_addNode_iff g v x).mpr (Or.inl h)

theorem addNode_nodup (g : Digraph) (v : String) (h : g.nodes.Nodup) :
    (g.addNode v).nodes.Nodup := by
  unfold Digraph.addNode
  split
  · exact h
  · rename_i hc
    have hv : v ∉ g.nodes := fun hm => hc (List.elem_iff.mpr hm)
    simp [List.nodup_append, h, hv]

theorem addEdge_nodes (g : Digraph) (u v : String) :
    (g.addEdge u v).nodes = ((g.addNode u).addNode v).nodes := by
  unfold Digraph.addEdge
  dsimp only
  split <;> rfl

theorem addEdge_edges (g : Digraph) (u v : String) :
    (g.addEdge u v).edges = if (u, v) ∈ g.edges then g.edges else g.edges ++ [(u, v)] := by
  unfold Digraph.addEdge
  dsimp only
  simp only [addNode_edges]
  by_cases hmem : (u, v) ∈ g.edges
  · simp [addNode_edges, List.elem_iff.mpr hmem, hmem]
  · have hc : ¬ (g.edges.contains (u, v) = true) := fun h2 => hmem (List.elem_iff.mp h2)
    simp [addNode_edges, hc, hmem]

theorem mem_addEdge_edges_iff (g : Digraph) (u v : String) (e : String × String) :
    e ∈ (g.addEdge u v).edges ↔ e = (u, v) ∨ e ∈ g.edges := by
  rw [addEdge_edges]
  split
  · rename_i h
    constructor
    · exact Or.inr
    · rintro (rfl | h2)
      · exact h
      · exact h2
  · simp [List.mem_append]
    tauto

theorem addEdge_mem_self (g : Digraph) (u v : String) :
    (u, v) ∈ (g.addEdge u v).edges :=
  (mem_addEdge_edges_iff g u v (u, v)).mpr (Or.inl rfl)

theorem addEdge_mem_of_mem (g : Digraph) (u v : String) (e : String × String)
    (h : e ∈ g.edges) : e ∈ (g.addEdge u v).edges :=
  (mem_addEdge_edges_iff g u v e).mpr (Or.inr h)

theorem addEdge_nodup (g : Digraph) (u v : String) (h : g.nodes.Nodup) :
    (g.addEdge u v).nodes.Nodup := by
  rw [addEdge_nodes]
  exact addNode_nodup _ v (addNode_nodup _ u h)

theorem mem_addEdge_nodes_of_mem (g : Digraph) (u v x : String) (h : x ∈ g.nodes) :
    x ∈ (g.addEdge u v).nodes := by
  rw [addEdge_nodes]
  exact mem_addNode_of_mem _ v _ (mem_addNode_of_mem _ u _ h)

/-! ## Generic fold lemmas over digraph-building steps -/

theorem foldl_preserve {β : Type} (P : Digraph → Prop) (step : Digraph → β → Digraph) :
    ∀ (l : List β), (∀ g x, x ∈ l → P g → P (step g x)) →
      ∀ g, P g → P (l.foldl step g) := by
  intro l
  induction l with
  | nil => intro _ g h; exact h
  | cons x xs ih =>
      intro hstep g h
      exact ih (fun g2 y hy hp => hstep g2 y (List.mem_cons_of_mem _ hy) hp)
        (step g x) (hstep g x (List.mem_cons_self _ _) h)

theorem foldl_edges_mono {β : Type} (step : Digraph → β → Digraph)
    (hstep : ∀ g x e, e ∈ g.edges → e ∈ (step g x).edges) :
    ∀ (l : List β) (g : Digraph) (e : String × String),
      e ∈ g.edges → e ∈ (l.foldl step g).edges := by
  intro l
  induction l with
  | nil => intro g e h; exact h
  | cons x xs ih => intro g e h; exact ih (step g x) e (hstep g x e h)

theorem foldl_eventually {β : Type} (step : Digraph → β → Digraph)
    (hmono : ∀ g x e, e ∈ g.edges → e ∈ (step g x).edges)
    (x : β) (e : String × String) (hx : ∀ g, e ∈ (step g x).edges) :
    ∀ (l : List β) (g : Digraph), x ∈ l → e ∈ (l.foldl step g).edges := by
  intro l
  induction l with
  | nil => intro g h; cases h
  | cons y ys ih =>
      intro g hmem
      rcases List.mem_cons.mp hmem with rfl | hmem2
      · exact foldl_edges_mono step hmono ys (step g x) e (hx g)
      · exact ih (step g y) hmem2

/-! ## Monotonicity of the step-graph construction -/

theorem wildcardFold_mono (ids : List String) (pfx sid : String) :
    ∀ (g : Digraph) (e : String × String), e ∈ g.edges →
      e ∈ (wildcardFold ids pfx sid g).edges := by
  intro g e h
  unfold wildcardFold
  refine foldl_edges_mono _ ?_ ids g e h
  intro g2 oid e2 he2
  split
  · exact addEdge_mem_of_mem _ _ _ _ he2
  · exact he2

theorem depStep_mono (ids : List String) (sid : String) :
    ∀ (g : Digraph) (dep : String) (e : String × String), e ∈ g.edges →
      e ∈ (depStep ids sid g dep).edges := by
  intro g dep e h
  unfold depStep
  split
  · exact wildcardFold_mono ids _ sid g e h
  · split
    · exact addEdge_mem_of_mem _ _ _ _ h
    · exact h

theorem stepProcess_mono (ids : List String) :
    ∀ (g : Digraph) (s : RefactorStep) (e : String × String), e ∈ g.edges →
      e ∈ (stepProcess ids g s).edges := by
  intro g s e h
  unfold stepProcess
  refine foldl_edges_mono _ (depStep_mono ids s.id) s.dependencies (g.addNode s.id) e ?_
  rw [addNode_edges]
  exact h

/-! ## Edge existence for declared dependencies -/

theorem wildcardFold_adds (ids : List String) (pfx sid aid : String)
    (hmem : aid ∈ ids) (hpfx : strStartsWith aid pfx = true) :
    ∀ g, (aid, sid) ∈ (wildcardFold ids pfx sid g).edges := by
  intro g
  unfold wildcardFold
  refine foldl_eventually _ ?_ aid (aid, sid) ?_ ids g hmem
  · intro g2 oid e2 he2
    split
    · exact addEdge_mem_of_mem _ _ _ _ he2
    · exact he2
  · intro g2
    rw [if_pos hpfx]
    exact addEdge_mem_self _ _ _

theorem depStep_adds (ids : List String) (sid aid dep : String)
    (hcase : (strEndsWith dep "*" = true ∧ strStartsWith aid (strDropRight dep 1) = true)
      ∨ (strEndsWith dep "*" = false ∧ dep = aid))
    (haid : aid ∈ ids) :
    ∀ g, (aid, sid) ∈ (depStep ids sid g dep).edges := by
  intro g
  unfold depStep
  rcases hcase with ⟨hw, hp⟩ | ⟨hw, rfl⟩
  · rw [if_pos hw]
    exact wildcardFold_adds ids _ sid aid haid hp g
  · rw [if_neg (by simp [hw]), if_pos (List.elem_iff.mpr haid)]
    exact addEdge_mem_self _ _ _

theorem stepProcess_adds (ids : List String) (B : RefactorStep) (aid dep : String)
    (hdmem : dep ∈ B.dependencies)
    (hcase : (strEndsWith dep "*" = true ∧ strStartsWith aid (strDropRight dep 1) = true)
      ∨ (strEndsWith dep "*" = false ∧ dep = aid))
    (haid : aid ∈ ids) :
    ∀ g, (aid, B.id) ∈ (stepProcess ids g B).edges := by
  intro g
  unfold stepProcess
  exact foldl_eventually (depStep ids B.id) (depStep_mono ids B.id) dep (aid, B.id)
    (depStep_adds ids B.id aid dep hcase haid) B.dependencies (g.addNode B.id) hdmem

theorem mem_dedupFirstAux [DecidableEq α] (l : List α) :
    ∀ (seen : List α) (a : α), a ∈ dedupFirstAux seen l ↔ a ∈ l ∧ a ∉ seen := by
  induction l with
  | nil => intro seen a; simp [dedupFirstAux]
  | cons x xs ih =>
      intro seen a
      simp only [dedupFirstAux]
      split
      · rename_i hx
        rw [ih seen a, List.mem_cons]
        constructor
        · rintro ⟨h1, h2⟩; exact ⟨Or.inr h1, h2⟩
        · rintro ⟨h1 | h1, h2⟩
          · subst h1
            exact absurd (List.elem_iff.mp hx) h2
          · exact ⟨h1, h2⟩
      · rename_i hx
        have hxseen : x ∉ seen := fun hm => hx (List.elem_iff.mpr hm)
        rw [List.mem_cons, ih (seen ++ [x]) a, List.mem_cons]
        constructor
        · rintro (rfl | ⟨h1, h2⟩)
          · exact ⟨Or.inl rfl, hxseen⟩
          · refine ⟨Or.inr h1, fun hm => h2 (List.mem_append_left _ hm)⟩
        · rintro ⟨h1 | h1, h2⟩
          · exact Or.inl h1
          · by_cases hax : a = x
            · exact Or.inl hax
            · refine Or.inr ⟨h1, fun hm => ?_⟩
              rcases List.mem_append.mp hm with hm | hm
              · exact h2 hm
              · exact hax (List.mem_singleton.mp hm)

theorem mem_dedupFirst [DecidableEq α] (l : List α) (a : α) :
    a ∈ dedupFirst l ↔ a ∈ l := by
  unfold dedupFirst
  rw [mem_dedupFirstAux l [] a]
  simp

theorem mem_stepIds (steps : List RefactorStep) (s : RefactorStep) (h : s ∈ steps) :
    s.id ∈ stepIds steps := by
  unfold stepIds
  rw [mem_dedupFirst]
  exact List.mem_map_of_mem _ h

theorem bsg_edge_of_dep (steps : List RefactorStep) (A B : RefactorStep)
    (hA : A ∈ steps) (hB : B ∈ steps) (hdep : DependsOn B A) :
    (A.id, B.id) ∈ (buildStepGraph steps).edges := by
  obtain ⟨dep, hdmem, hcase⟩ := hdep
  unfold buildStepGraph
  exact foldl_eventually (stepProcess (stepIds steps))
    (fun g s e he => stepProcess_mono (stepIds steps) g s e he)
    B (A.id, B.id)
    (stepProcess_adds (stepIds steps) B A.id dep hdmem hcase (mem_stepIds steps A hA))
    steps { nodes := [], edges := [] } hB

/-! ## Structural invariants of the step graph -/

theorem wildcardFold_pres (ids : List String) (pfx sid : String)
    (P : Digraph → Prop)
    (haddEdge : ∀ g u, u ∈ ids → P g → P (g.addEdge u sid)) :
    ∀ g, P g → P (wildcardFold ids pfx sid g) := by
  intro g h
  unfold wildcardFold
  refine foldl_preserve P _ ids ?_ g h
  intro g2 oid hoid hp
  split
  · exact haddEdge g2 oid hoid hp
  · exact hp

theorem depStep_pres (ids : List String) (sid : String) (P : Digraph → Prop)
    (haddEdge : ∀ g u, u ∈ ids → P g → P (g.addEdge u sid)) :
    ∀ g dep, P g → P (depStep ids sid g dep) := by
  intro g dep h
  unfold depStep
  split
  · exact wildcardFold_pres ids _ sid P haddEdge g h
  · split
    · rename_i hnw hc
      exact haddEdge g dep (List.elem_iff.mp hc) h
    · exact h

theorem stepProcess_pres (ids : List String) (P : Digraph → Prop)
    (s : RefactorStep)
    (haddNode : ∀ g, P g → P (g.addNode s.id))
    (haddEdge : ∀ g u, u ∈ ids → P g → P (g.addEdge u s.id)) :
    ∀ g, P g → P (stepProcess ids g s) := by
  intro g h
  unfold stepProcess
  refine foldl_preserve P _ s.dependencies ?_ (g.addNode s.id) (haddNode g h)
  intro g2 dep _ hp
  exact depStep_pres ids s.id P haddEdge g2 dep hp

theorem bsg_pres (steps : List RefactorStep) (P : Digraph → Prop)
    (haddNode : ∀ g (s : RefactorStep), s ∈ steps → P g → P (g.addNode s.id))
    (haddEdge : ∀ g u (s : RefactorStep), s ∈ steps → u ∈ stepIds steps →
      P g → P (g.addEdge u s.id))
    (hinit : P { nodes := [], edges := [] }) :
    P (buildStepGraph steps) := by
  unfold buildStepGraph
  refine foldl_preserve P _ steps ?_ _ hinit
  intro g s hs hp
  exact stepProcess_pres (stepIds steps) P s
    (fun g2 h2 => haddNode g2 s hs h2)
    (fun g2 u hu h2 => haddEdge g2 u s hs hu h2) g hp

theorem bsg_nodup (steps : List RefactorStep) : (buildStepGraph steps).nodes.Nodup := by
  refine bsg_pres steps (fun g => g.nodes.Nodup) ?_ ?_ ?_
  · intro g s _ h; exact addNode_nodup g s.id h
  · intro g u s _ _ h; exact addEdge_nodup g u s.id h
  · exact List.nodup_nil

theorem bsg_closed (steps : List RefactorStep) :
    ∀ e ∈ (buildStepGraph steps).edges,
      e.1 ∈ (buildStepGraph steps).nodes ∧ e.2 ∈ (buildStepGraph steps).nodes := by
  refine bsg_pres steps
    (fun g => ∀ e ∈ g.edges, e.1 ∈ g.nodes ∧ e.2 ∈ g.nodes) ?_ ?_ ?_
  · intro g s _ h e he
    rw [addNode_edges] at he
    obtain ⟨h1, h2⟩ := h e he
    exact ⟨mem_addNode_of_mem g s.id _ h1, mem_addNode_of_mem g s.id _ h2⟩
  · intro g u s _ _ h e he
    rcases (mem_addEdge_edges_iff g u s.id e).mp he with rfl | he2
    · constructor
      · rw [addEdge_nodes]
        exact mem_addNode_of_mem _ _ _ (mem_addNode_self g u)
      · rw [addEdge_nodes]
        exact mem_addNode_self _ s.id
    · obtain ⟨h1, h2⟩ := h e he2
      exact ⟨mem_addEdge_nodes_of_mem g u s.id _ h1, mem_addEdge_nodes_of_mem g u s.id _ h2⟩
  · intro e he; cases he

theorem bsg_nodes_sub (steps : List RefactorStep) :
    ∀ v ∈ (buildStepGraph steps).nodes, v ∈ stepIds steps := by
  refine bsg_pres steps (fun g => ∀ v ∈ g.nodes, v ∈ stepIds steps) ?_ ?_ ?_
  · intro g s hs h v hv
    rcases (mem_addNode_iff g s.id v).mp hv with hv2 | rfl
    · exact h v hv2
    · exact mem_stepIds steps s hs
  · intro g u s hs hu h v hv
    rw [addEdge_nodes] at hv
    rcases (mem_addNode_iff _ s.id v).mp hv with hv2 | rfl
    · rcases (mem_addNode_iff g u v).mp hv2 with hv3 | rfl
      · exact h v hv3
      · exact hu
    · exact mem_stepIds steps s hs
  · intro v hv; cases hv

/-! ## Step lookup lemmas -/

theorem find?_id_unique (l : List RefactorStep) (hnd : (l.map (·.id)).Nodup)
    (A : RefactorStep) (hA : A ∈ l) :
    l.find? (fun s => s.id = A.id) = some A := by
  induction l with
  | nil => cases hA
  | cons x xs ih =>
      simp only [List.map_cons, List.nodup_cons] at hnd
      obtain ⟨hx, hxs⟩ := hnd
      rcases List.mem_cons.mp hA with rfl | hA2
      · exact List.find?_cons_of_pos _ (by simp)
      · have hne : ¬ (x.id = A.id) := by
          intro h2
          exact hx (h2 ▸ List.mem_map_of_mem (·.id) hA2)
        rw [List.find?_cons_of_neg _ (by simpa using hne)]
        exact ih hxs hA2

theorem stepMapLookup_eq_self (steps : List RefactorStep)
    (hnd : (steps.map (·.id)).Nodup) (A : RefactorStep) (hA : A ∈ steps) :
    stepMapLookup steps A.id = some A := by
  unfold stepMapLookup
  refine find?_id_unique steps.reverse ?_ A (List.mem_reverse.mpr hA)
  rw [List.map_reverse]
  exact List.nodup_reverse.mpr hnd

theorem filterMap_eq_map_of_some {α β : Type} (f : α → Option β) (g : α → β)
    (l : List α) (h : ∀ x ∈ l, f x = some (g x)) : l.filterMap f = l.map g := by
  induction l with
  | nil => rfl
  | cons x xs ih =>
      have hx := h x (List.mem_cons_self _ _)
      simp [List.filterMap_cons, hx,
        ih (fun y hy => h y (List.mem_cons_of_mem _ hy))]

/-! ## C4: cycle fallback -/

/-- Claim C4 counterexample: on a concrete cyclic plan, the entire
caller-visible result of the ordering stage is the unchanged step list.  The
return value — of type list-of-steps, exactly as in the source — carries no
cycle-warning component and the `NetworkXUnfeasible` handler only returns
`steps`, so the claimed "cycle warning signal surfaced to the caller" does
not exist: the cycle is silently swallowed. -/
theorem cycle_warning_swallowed :
    HasCycle (buildStepGraph cycleSteps).edges ∧
    order_by_dependencies cycleSteps = cycleSteps ∧
    create_plan_steps cycleSteps none = cycleSteps := by
  have h1 : ("cycle-a", "cycle-b") ∈ (buildStepGraph cycleSteps).edges := by decide
  have h2 : ("cycle-b", "cycle-a") ∈ (buildStepGraph cycleSteps).edges := by decide
  exact ⟨⟨"cycle-a", Reach.tail h1 (Reach.single h2)⟩, by decide, by decide⟩

/-- Claim C4 (corrected): when the step-dependency graph built from literal
and wildcard dependencies contains a cycle, `createPlan` returns the steps in
their pre-sort order (generation order, after optional prioritisation)
without raising an error; the `NetworkXUnfeasible` exception is caught and
silently swallowed — no cycle warning signal accompanies the result. -/
theorem cycle_returns_presort_order (steps : List RefactorStep)
    (priorities : Option (List String))
    (h : HasCycle (buildStepGraph (presort_steps steps priorities)).edges) :
    create_plan_steps steps priorities = presort_steps steps priorities := by
  unfold create_plan_steps order_by_dependencies
  dsimp only
  rw [topoSort_none_of_hasCycle _ (bsg_nodup _) (bsg_closed _) h]

/-- Witness for the corrected C4 statement: the concrete cyclic two-step
plan. -/
theorem cycle_returns_presort_order_witness :
    create_plan_steps cycleSteps none = presort_steps cycleSteps none := by
  have h1 : ("cycle-a", "cycle-b") ∈ (buildStepGraph (presort_steps cycleSteps none)).edges := by
    decide
  have h2 : ("cycle-b", "cycle-a") ∈ (buildStepGraph (presort_steps cycleSteps none)).edges := by
    decide
  exact cycle_returns_presort_order cycleSteps none
    ⟨"cycle-a", Reach.tail h1 (Reach.single h2)⟩

/-! ## C5: dependency-respecting order -/

theorem wd_edges :
    (buildStepGraph (presort_steps wdSteps none)).edges = [("wd-a", "wd-b")] := by
  decide

theorem wd_no_cycle :
    ¬ HasCycle (buildStepGraph (presort_steps wdSteps none)).edges := by
  rw [wd_edges]
  rintro ⟨v, hv⟩
  have key : ∀ a b : String, Reach [("wd-a", "wd-b")] a b → a = "wd-a" ∧ b = "wd-b" := by
    intro a b h
    induction h with
    | single h2 =>
        simp only [List.mem_singleton, Prod.mk.injEq] at h2
        exact h2
    | tail h2 hr ih =>
        simp only [List.mem_singleton, Prod.mk.injEq] at h2
        obtain ⟨hb, hc⟩ := ih
        rw [h2.2] at hb
        exact absurd hb (by decide)
  obtain ⟨h1, h2⟩ := key v v hv
  rw [h1] at h2
  exact absurd h2 (by decide)

/-- Claim C5: when the step-dependency graph over the (pre-sorted) steps is
acyclic, the step sequence returned by the plan pipeline respects every
literal and wildcard dependency edge: for any step B depending on step A —
by literal id, or because A's id matches a wildcard prefix of B ending in
`*` — A appears strictly before B in the returned sequence.  Unique step ids
are assumed, as stated by the data model (spec §3: "id (unique)"). -/
theorem acyclic_order_respects_dependencies (steps : List RefactorStep)
    (priorities : Option (List String))
    (hnodup : ((presort_steps steps priorities).map (·.id)).Nodup)
    (hacyc : ¬ HasCycle (buildStepGraph (presort_steps steps priorities)).edges)
    (A B : RefactorStep)
    (hA : A ∈ presort_steps steps priorities)
    (hB : B ∈ presort_steps steps priorities)
    (hdep : DependsOn B A) :
    ∃ i j : Nat, i < j ∧
      (create_plan_steps steps priorities).get? i = some A ∧
      (create_plan_steps steps priorities).get? j = some B := by
  obtain ⟨l, hl⟩ :=
    topoSort_some_of_acyclic (buildStepGraph (presort_steps steps priorities)) hacyc
  have hl2 : kahnAux (buildStepGraph (presort_steps steps priorities)).edges
      (buildStepGraph (presort_steps steps priorities)).nodes.length
      (buildStepGraph (presort_steps steps priorities)).nodes = some l := hl
  obtain ⟨hlnd, hlmem, hlord⟩ :=
    kahnAux_spec _ _ _ l (bsg_nodup (presort_steps steps priorities)) hl2
  have hedge := bsg_edge_of_dep (presort_steps steps priorities) A B hA hB hdep
  have hAnode : A.id ∈ (buildStepGraph (presort_steps steps priorities)).nodes :=
    (bsg_closed _ (A.id, B.id) hedge).1
  have hBnode : B.id ∈ (buildStepGraph (presort_steps steps priorities)).nodes :=
    (bsg_closed _ (A.id, B.id) hedge).2
  have hidx : l.indexOf A.id < l.indexOf B.id := hlord A.id B.id hedge hAnode hBnode
  have hAl : A.id ∈ l := (hlmem A.id).mpr hAnode
  have hBl : B.id ∈ l := (hlmem B.id).mpr hBnode
  have hsome : ∀ x ∈ l,
      stepMapLookup (presort_steps steps priorities) x =
        some ((stepMapLookup (presort_steps steps priorities) x).getD A) := by
    intro x hx
    have hxids : x ∈ stepIds (presort_steps steps priorities) :=
      bsg_nodes_sub _ x ((hlmem x).mp hx)
    unfold stepIds at hxids
    rw [mem_dedupFirst] at hxids
    obtain ⟨s, hs, hsid⟩ := List.mem_map.mp hxids
    rw [← hsid, stepMapLookup_eq_self _ hnodup s hs]
    rfl
  have hout : create_plan_steps steps priorities =
      l.map (fun id => (stepMapLookup (presort_steps steps priorities) id).getD A) := by
    unfold create_plan_steps order_by_dependencies
    dsimp only
    rw [hl]
    exact filterMap_eq_map_of_some _ _ l hsome
  have hgetA : l.get? (l.indexOf A.id) = some A.id := by
    rw [List.get?_eq_get (List.indexOf_lt_length.mpr hAl)]
    exact congrArg some (List.indexOf_get _)
  have hgetB : l.get? (l.indexOf B.id) = some B.id := by
    rw [List.get?_eq_get (List.indexOf_lt_length.mpr hBl)]
    exact congrArg some (List.indexOf_get _)
  refine ⟨l.indexOf A.id, l.indexOf B.id, hidx, ?_, ?_⟩
  · rw [hout, List.get?_map, hgetA]
    simp [stepMapLookup_eq_self _ hnodup A hA]
  · rw [hout, List.get?_map, hgetB]
    simp [stepMapLookup_eq_self _ hnodup B hB]

/-- Witness for C5 at a concrete input: a two-step acyclic plan listed in
dependency-violating order gets reordered with the prerequisite first. -/
theorem acyclic_order_respects_dependencies_witness :
    ∃ i j : Nat, i < j ∧
      (create_plan_steps wdSteps none).get? i = some wdStepA ∧
      (create_plan_steps wdSteps none).get? j = some wdStepB :=
  acyclic_order_respects_dependencies wdSteps none (by decide) wd_no_cycle
    wdStepA wdStepB (by decide) (by decide)
    ⟨"wd-a", by decide, Or.inr ⟨by decide, rfl⟩⟩

/-! ## C1: shared-database smell -/

/-- Claim C1 evaluation at the failing input: two services both referencing
the `users` table.  The shared-database rule of `_detect_code_smells`
iterates over the service's own analysis dict (`service_analysis.items()`)
instead of the other services, and calls `.get` on a non-dict value, so the
call raises `AttributeError` — and the whole `analyze_architecture` run
aborts — whenever a service references any table.  No `shared_database`
smell naming the two services is ever produced. -/
theorem shared_database_smell_crashes :
    detect_code_smells "auth" authShared = .error "AttributeError" ∧
    analyze_architecture [("auth", authShared), ("billing", billingShared)]
      = .error "AttributeError" :=
  ⟨rfl, rfl⟩

/-! ## C2: API dependency edges -/

/-- Claim C2 evaluation at the failing input: the user service's code
contains the auth endpoint's literal path, yet `_check_api_dependency` — a
placeholder that never reads file contents — returns `False` for it (and for
every other input), so `_build_dependency_graph` emits no edge at all. -/
theorem api_dependency_check_is_stub :
    strContains userApiCallerCode loginEndpoint.path = true ∧
    check_api_dependency loginEndpoint.path userApi = false ∧
    build_dependency_graph [("auth", authApi), ("user", userApi)] = [] ∧
    (∀ (p : String) (sd : ServiceAnalysis), check_api_dependency p sd = false) :=
  ⟨by decide, rfl, by decide, fun p sd => rfl⟩

/-! ## C3: the dependency list is always empty -/

theorem filterMap_dep_nil (services : List (String × ServiceAnalysis))
    (sp : String × ServiceAnalysis) (endpoint : Endpoint) :
    (services.filterMap (fun op =>
        if op.1 ≠ sp.1 ∧ check_api_dependency endpoint.path op.2 then
          some ({ source := op.1
                  target := sp.1
                  dependency_type := "api"
                  strength := (7 : Rat) / 10
                  calls := [endpoint.path] } : ServiceDependency)
        else none)) = [] := by
  induction services with
  | nil => rfl
  | cons op ops ih => simp [List.filterMap_cons, check_api_dependency, ih]

theorem endpoint_fold_nil (services : List (String × ServiceAnalysis))
    (sp : String × ServiceAnalysis) :
    ∀ (eps : List Endpoint) (acc : List ServiceDependency),
      eps.foldl
        (fun deps endpoint =>
          deps ++ services.filterMap
            (fun op =>
              if op.1 ≠ sp.1 ∧ check_api_dependency endpoint.path op.2 then
                some ({ source := op.1
                        target := sp.1
                        dependency_type := "api"
                        strength := (7 : Rat) / 10
                        calls := [endpoint.path] } : ServiceDependency)
              else none))
        acc = acc := by
  intro eps
  induction eps with
  | nil => intro acc; rfl
  | cons e es ih =>
      intro acc
      rw [List.foldl_cons, filterMap_dep_nil services sp e, List.append_nil, ih]

theorem build_dependency_graph_nil (services : List (String × ServiceAnalysis)) :
    build_dependency_graph services = [] := by
  unfold build_dependency_graph
  suffices h : ∀ (L : List (String × ServiceAnalysis)) (acc : List ServiceDependency),
      L.foldl
        (fun deps sp =>
          sp.2.api_endpoints.foldl
            (fun deps endpoint =>
              deps ++ services.filterMap
                (fun op =>
                  if op.1 ≠ sp.1 ∧ check_api_dependency endpoint.path op.2 then
                    some ({ source := op.1
                            target := sp.1
                            dependency_type := "api"
                            strength := (7 : Rat) / 10
                            calls := [endpoint.path] } : ServiceDependency)
                  else none))
            deps)
        acc = acc from h services []
  intro L
  induction L with
  | nil => intro acc; rfl
  | cons sp sps ih =>
      intro acc
      rw [List.foldl_cons, endpoint_fold_nil services sp, ih]

theorem rat_half_mul_nonneg (n : Nat) : ¬ ((0 : Rat) > (n : Rat) * (1 / 2 : Rat)) := by
  push_neg
  positivity

theorem identify_risk_areas_nil (services : List (String × ServiceAnalysis)) :
    identify_risk_areas services [] [] = [] := by
  unfold identify_risk_areas
  dsimp only
  simp only [graphNodes, List.foldl_nil, List.length_nil, gt_iff_lt, Nat.lt_irrefl,
    if_false, List.nil_append]
  rw [List.filterMap_eq_nil_iff]
  intro sp hsp
  simp only [List.filter_nil, List.map_nil, List.length_nil, Nat.cast_zero]
  rw [if_neg]
  exact rat_half_mul_nonneg services.length

/-- Claim C3: for every input, `_check_api_dependency` returns `False`, so
`_build_dependency_graph` returns no dependency; consequently whenever
`analyze_architecture` returns an analysis, its `dependencies` list is empty,
`metrics["total_dependencies"]` is 0, and the high-coupling contribution to
`risk_areas` is empty (the dependency graph has no node). -/
theorem dependencies_always_empty (services : List (String × ServiceAnalysis))
    (res : ArchitectureAnalysis) (h : analyze_architecture services = .ok res) :
    build_dependency_graph services = [] ∧
    res.dependencies = [] ∧
    res.metrics.total_dependencies = 0 ∧
    res.risk_areas.filter (fun ra => ra.type == "high_coupling") = [] := by
  have hbdg := build_dependency_graph_nil services
  have hedges : dependency_graph_edges services = [] := by
    unfold dependency_graph_edges
    rw [hbdg]; rfl
  unfold analyze_architecture at h
  cases hcs : collect_smells services with
  | error e => rw [hcs] at h; exact absurd h (by simp [Bind.bind, Except.bind])
  | ok smells =>
      rw [hcs] at h
      simp only [Bind.bind, Except.bind, Except.ok.injEq] at h
      subst h
      refine ⟨hbdg, hbdg, ?_, ?_⟩
      · simp [calculate_metrics, hbdg, hedges, graphNodes]
      · simp only [hbdg, hedges, identify_risk_areas_nil, List.filter_nil]

theorem clean_detect : detect_code_smells "svc" cleanService = .ok [] := by
  unfold detect_code_smells cleanService
  norm_num

theorem clean_metrics :
    calculate_metrics [("svc", cleanService)] [] [] = cleanResult.metrics := by
  unfold calculate_metrics degree_centrality graphNodes cleanService cleanResult
  norm_num

theorem clean_analyze :
    analyze_architecture [("svc", cleanService)] = .ok cleanResult := by
  unfold analyze_architecture collect_smells
  simp only [List.foldlM, clean_detect, Bind.bind, Except.bind, pure, Except.pure,
    build_dependency_graph_nil, dependency_graph_edges, List.map_nil,
    identify_risk_areas_nil, clean_metrics]
  rfl

/-- Witness for C3 at a concrete input on which the analysis succeeds: a
single quiet service. -/
theorem dependencies_always_empty_witness :
    analyze_architecture [("svc", cleanService)] = .ok cleanResult ∧
    (build_dependency_graph [("svc", cleanService)] = [] ∧
     cleanResult.dependencies = [] ∧
     cleanResult.metrics.total_dependencies = 0 ∧
     cleanResult.risk_areas.filter (fun ra => ra.type == "high_coupling") = []) :=
  ⟨clean_analyze, dependencies_always_empty [("svc", cleanService)] cleanResult clean_analyze⟩

end RefactorAgent
